import Mathlib

/-!
# go-zmodem: shallow embedding and verification of the spec claims

This file embeds the core of the go-zmodem protocol engine in Lean 4:
the ZDLE escape codec (`buildEscapeTable` / `escapeRequired` / the
transport writer and reader), the CRC codec, the frame codec
(hex and binary headers, data subpackets), and the state-machine steps
the claims refer to.  Bytes are modelled as `Nat` with explicit `< 256`
bounds; byte streams are `List Nat`; fallible reads return `Except`.
Reader loops that consume an unbounded number of octets take explicit
fuel; the packaged entry points instantiate the fuel with the stream
length plus one, which is always sufficient since every logical read
consumes at least one octet.
-/

namespace ZM

/-! ## Protocol constants (from the frame-constants source file) -/

def ZPAD : Nat := 0x2a
def ZDLE : Nat := 0x18
def CAN : Nat := 0x18
def ZBIN : Nat := 0x41
def ZHEX : Nat := 0x42
def ZBIN32 : Nat := 0x43
def ZBINR32 : Nat := 0x44
def ZVBIN : Nat := 0x61
def ZVHEX : Nat := 0x62
def ZVBIN32 : Nat := 0x63
def ZVBINR32 : Nat := 0x64

def ZRQINIT : Nat := 0x00
def ZRINIT : Nat := 0x01
def ZSINIT : Nat := 0x02
def ZACK : Nat := 0x03
def ZFILE : Nat := 0x04
def ZSKIP : Nat := 0x05
def ZNAK : Nat := 0x06
def ZFIN : Nat := 0x08
def ZRPOS : Nat := 0x09
def ZDATA : Nat := 0x0a
def ZEOF : Nat := 0x0b

def ZCRCE : Nat := 0x68
def ZCRCG : Nat := 0x69
def ZCRCQ : Nat := 0x6a
def ZCRCW : Nat := 0x6b
def ZRUB0 : Nat := 0x6c
def ZRUB1 : Nat := 0x6d

def XON : Nat := 0x11
def XOFF : Nat := 0x13

/-! ## CRC-16 codec

Modelled from the spec: the CRC source file of the repository is not
present under `src/` (only its callers and tests are).  Per spec §4.2,
the CRC-16 engine is CRC-16/XMODEM: polynomial `0x1021`, init `0`,
processed most-significant bit first with the message bit entering the
register (the classical augmented form), with a finalization step that
feeds two zero octets, "yielding a CRC that verifies to zero when the
payload is followed by the received CRC bytes".  `crc16Verify` is that
verify-to-zero check. -/

/-- One CRC-16 register step: shift one message bit in; if a one bit
fell out of position 15, reduce by the polynomial `0x1021`. -/
def crc16Step (r bit : Nat) : Nat :=
  (((r <<< 1) % 65536) ^^^ bit) ^^^ (if r.testBit 15 then 0x1021 else 0)

/-- Feed the bits of one octet (most significant first), indices given
explicitly. -/
def crc16Bits (idxs : List Nat) (r b : Nat) : Nat :=
  idxs.foldl (fun s i => crc16Step s ((b >>> i) &&& 1)) r

/-- Update the CRC-16 register with one octet. -/
def crc16UpdateByte (r b : Nat) : Nat :=
  crc16Bits [7, 6, 5, 4, 3, 2, 1, 0] r b

/-- `update(state, bytes) → state` of spec §4.2. -/
def crc16Update (r : Nat) (data : List Nat) : Nat :=
  data.foldl crc16UpdateByte r

/-- `finalize16`: update with two zero octets. -/
def crc16Finalize (r : Nat) : Nat :=
  crc16Update r [0, 0]

/-- `calc16(bytes) = update + finalize`. -/
def crc16Calc (data : List Nat) : Nat :=
  crc16Finalize (crc16Update 0 data)

/-- `verify16(bytes+crc)`: updating across payload and received CRC
yields zero. -/
def crc16Verify (data : List Nat) : Bool :=
  crc16Update 0 data == 0

/-! ### CRC-16 lemmas -/

theorem bitand_one_lt (x : Nat) : x &&& 1 < 2 := by
  rw [Nat.and_one_is_mod]
  exact Nat.mod_lt _ (by norm_num)

theorem crc16Step_lt (r bit : Nat) (hb : bit < 2) : crc16Step r bit < 65536 := by
  have e : (65536 : Nat) = 2 ^ 16 := by norm_num
  have h1 : (r <<< 1) % 65536 < 2 ^ 16 := by
    rw [← e]; exact Nat.mod_lt _ (by norm_num)
  have h2 : ((r <<< 1) % 65536) ^^^ bit < 2 ^ 16 :=
    Nat.xor_lt_two_pow h1 (by omega)
  unfold crc16Step
  by_cases h : r.testBit 15
  · simp only [h, if_true]
    rw [e]
    exact Nat.xor_lt_two_pow h2 (by norm_num)
  · simp only [h, if_false]
    rw [e]
    simpa using h2

theorem crc16Bits_cons (i : Nat) (idxs : List Nat) (r b : Nat) :
    crc16Bits (i :: idxs) r b = crc16Bits idxs (crc16Step r ((b >>> i) &&& 1)) b := by
  simp [crc16Bits]

theorem crc16Bits_lt (idxs : List Nat) (r b : Nat) (h : idxs ≠ []) :
    crc16Bits idxs r b < 65536 := by
  induction idxs generalizing r with
  | nil => contradiction
  | cons i rest ih =>
    rw [crc16Bits_cons]
    cases rest with
    | nil => simpa [crc16Bits] using crc16Step_lt r _ (bitand_one_lt _)
    | cons j rest2 => exact ih _ (by simp)

theorem crc16UpdateByte_lt (r b : Nat) : crc16UpdateByte r b < 65536 := by
  unfold crc16UpdateByte
  exact crc16Bits_lt _ _ _ (by simp)

theorem crc16Update_lt (r : Nat) (data : List Nat) (h : r < 65536) :
    crc16Update r data < 65536 := by
  induction data generalizing r with
  | nil => simpa [crc16Update] using h
  | cons b rest ih =>
    simp only [crc16Update, List.foldl] at *
    exact ih _ (crc16UpdateByte_lt _ _)

/-! ### GF(2)-linearity of the CRC-16 register -/

theorem shiftLeft_one_xor (r s : Nat) :
    (r ^^^ s) <<< 1 = (r <<< 1) ^^^ (s <<< 1) := by
  apply Nat.eq_of_testBit_eq
  intro i
  simp only [Nat.testBit_shiftLeft, Nat.testBit_xor]
  by_cases h : 1 ≤ i <;> simp [h]

theorem mod65536_xor (x y : Nat) :
    (x ^^^ y) % 65536 = (x % 65536) ^^^ (y % 65536) := by
  have e : (65536 : Nat) = 2 ^ 16 := by norm_num
  rw [e]
  apply Nat.eq_of_testBit_eq
  intro i
  simp only [Nat.testBit_mod_two_pow, Nat.testBit_xor]
  by_cases h : i < 16 <;> simp [h]

theorem shiftRight_xor (x y i : Nat) :
    (x ^^^ y) >>> i = (x >>> i) ^^^ (y >>> i) := by
  apply Nat.eq_of_testBit_eq
  intro j
  simp

theorem ite_poly_xor (a b : Bool) (P : Nat) :
    (if (a ^^ b) = true then P else 0) =
      (if a = true then P else 0) ^^^ (if b = true then P else 0) := by
  cases a <;> cases b <;> simp

theorem crc16Step_linear (r s x y : Nat) :
    crc16Step (r ^^^ s) (x ^^^ y) = crc16Step r x ^^^ crc16Step s y := by
  unfold crc16Step
  rw [shiftLeft_one_xor, mod65536_xor, Nat.testBit_xor, ite_poly_xor]
  ac_rfl

theorem crc16Bits_linear (idxs : List Nat) (r s x y : Nat) :
    crc16Bits idxs (r ^^^ s) (x ^^^ y) = crc16Bits idxs r x ^^^ crc16Bits idxs s y := by
  induction idxs generalizing r s with
  | nil => simp [crc16Bits]
  | cons i rest ih =>
    rw [crc16Bits_cons, crc16Bits_cons, crc16Bits_cons,
      shiftRight_xor, Nat.and_xor_distrib_right, crc16Step_linear]
    exact ih _ _

theorem crc16UpdateByte_linear (r s x y : Nat) :
    crc16UpdateByte (r ^^^ s) (x ^^^ y) = crc16UpdateByte r x ^^^ crc16UpdateByte s y :=
  crc16Bits_linear _ r s x y

set_option maxRecDepth 4000 in
theorem crc16UpdateByte_zero_state : ∀ b < 256, crc16UpdateByte 0 b = b := by decide

set_option maxRecDepth 4000 in
theorem crc16UpdateByte_zero_byte : ∀ r < 256, crc16UpdateByte r 0 = r <<< 8 := by decide

theorem crc16UpdateByte_split (c b : Nat) (hb : b < 256) :
    crc16UpdateByte c b = crc16UpdateByte c 0 ^^^ b := by
  have h := crc16UpdateByte_linear c 0 0 b
  rw [Nat.xor_zero, Nat.zero_xor] at h
  rw [h, crc16UpdateByte_zero_state b hb]

theorem and255_of_lt {a : Nat} (h : a < 256) : a &&& 255 = a := by
  have e : (255 : Nat) = 2 ^ 8 - 1 := by norm_num
  rw [e]
  exact Nat.and_pow_two_sub_one_of_lt_two_pow (by simpa using h)

theorem hiLo_xor (F : Nat) (h : F < 65536) :
    ((F >>> 8) <<< 8) ^^^ (F &&& 255) = F := by
  apply Nat.eq_of_testBit_eq
  intro i
  have h255 : (255 : Nat) = 2 ^ 8 - 1 := by norm_num
  simp only [Nat.testBit_xor, Nat.testBit_shiftLeft, Nat.testBit_shiftRight,
    Nat.testBit_and, h255, Nat.testBit_two_pow_sub_one]
  by_cases h8 : 8 ≤ i
  · have e : 8 + (i - 8) = i := by omega
    simp [h8, e, show ¬ i < 8 by omega]
  · simp [h8, show i < 8 by omega]

theorem hiLo_or (F : Nat) (h : F < 65536) :
    ((F >>> 8) <<< 8) ||| (F &&& 255) = F := by
  apply Nat.eq_of_testBit_eq
  intro i
  have h255 : (255 : Nat) = 2 ^ 8 - 1 := by norm_num
  simp only [Nat.testBit_or, Nat.testBit_shiftLeft, Nat.testBit_shiftRight,
    Nat.testBit_and, h255, Nat.testBit_two_pow_sub_one]
  by_cases h8 : 8 ≤ i
  · have e : 8 + (i - 8) = i := by omega
    simp [h8, e, show ¬ i < 8 by omega]
  · simp [h8, show i < 8 by omega]

theorem shiftRight8_lt {F : Nat} (h : F < 65536) : F >>> 8 < 256 := by
  rw [Nat.shiftRight_eq_div_pow]
  omega

theorem and255_lt (a : Nat) : a &&& 255 < 256 :=
  Nat.lt_succ_of_le Nat.and_le_right

theorem crc16Finalize_eq (r : Nat) :
    crc16Finalize r = crc16UpdateByte (crc16UpdateByte r 0) 0 := by
  simp [crc16Finalize, crc16Update]

/-- The central CRC-16 fact: updating across a payload followed by the
big-endian octets of its finalized CRC yields the zero register, so
`crc16Verify` accepts exactly the streams the sender produces. -/
theorem crc16Update_append_calc (data : List Nat) :
    crc16Update 0 (data ++ [crc16Calc data >>> 8, crc16Calc data &&& 255]) = 0 := by
  have hc : crc16Update 0 data < 65536 := crc16Update_lt _ _ (by norm_num)
  have hF : crc16Calc data < 65536 := by
    rw [crc16Calc, crc16Finalize_eq]
    exact crc16UpdateByte_lt _ _
  have hhi : crc16Calc data >>> 8 < 256 := shiftRight8_lt hF
  have hlo : crc16Calc data &&& 255 < 256 := and255_lt _
  have e1 : crc16Update 0 (data ++ [crc16Calc data >>> 8, crc16Calc data &&& 255]) =
      crc16UpdateByte (crc16UpdateByte (crc16Update 0 data) (crc16Calc data >>> 8))
        (crc16Calc data &&& 255) := by
    simp [crc16Update, List.foldl_append]
  rw [e1, crc16UpdateByte_split _ _ hhi]
  have e2 : crc16UpdateByte (crc16UpdateByte (crc16Update 0 data) 0 ^^^ crc16Calc data >>> 8)
      (crc16Calc data &&& 255) =
      crc16UpdateByte (crc16UpdateByte (crc16Update 0 data) 0) 0 ^^^
        crc16UpdateByte (crc16Calc data >>> 8) (crc16Calc data &&& 255) := by
    have h := crc16UpdateByte_linear (crc16UpdateByte (crc16Update 0 data) 0)
      (crc16Calc data >>> 8) 0 (crc16Calc data &&& 255)
    rw [Nat.zero_xor] at h
    exact h
  rw [e2, ← crc16Finalize_eq, ← crc16Calc]
  rw [crc16UpdateByte_split _ _ hlo, crc16UpdateByte_zero_byte _ hhi, hiLo_xor _ hF]
  exact Nat.xor_self _

theorem crc16Verify_calc (data : List Nat) :
    crc16Verify (data ++ [crc16Calc data >>> 8, crc16Calc data &&& 255]) = true := by
  simp [crc16Verify, crc16Update_append_calc]

/-! ## CRC-32 codec

Modelled from the spec: the CRC source file of the repository is not
present under `src/`.  Per spec §4.2, the CRC-32 engine is CRC-32/IEEE:
polynomial `0xEDB88320` reflected, init `0xFFFFFFFF`, final XOR
`0xFFFFFFFF`, with Go `crc32.Update` semantics (init/final XOR handled
inside each call, so incremental use composes).  For `crc32Verify` the
spec offers two equivalent formulations; we take the stated equivalent
`crc32(payload) == received_crc32` over the trailing little-endian
four octets. -/

def crc32Step (r : Nat) : Nat :=
  if r &&& 1 = 1 then (r >>> 1) ^^^ 0xEDB88320 else r >>> 1

def crc32Byte (r b : Nat) : Nat :=
  crc32Step (crc32Step (crc32Step (crc32Step
    (crc32Step (crc32Step (crc32Step (crc32Step (r ^^^ b))))))))

def crc32Update (crc : Nat) (data : List Nat) : Nat :=
  (data.foldl crc32Byte (crc ^^^ 0xFFFFFFFF)) ^^^ 0xFFFFFFFF

def crc32Calc (data : List Nat) : Nat :=
  crc32Update 0 data

/-- Little-endian 32-bit encode (Go `binary.LittleEndian.PutUint32`,
with the byte casts made explicit). -/
def putLE32 (v : Nat) : List Nat :=
  [v &&& 255, (v >>> 8) &&& 255, (v >>> 16) &&& 255, (v >>> 24) &&& 255]

/-- Little-endian 32-bit decode (Go `binary.LittleEndian.Uint32`). -/
def leUint32 : List Nat → Nat
  | b0 :: b1 :: b2 :: b3 :: _ => b0 ||| (b1 <<< 8) ||| (b2 <<< 16) ||| (b3 <<< 24)
  | _ => 0

def crc32Verify (data : List Nat) : Bool :=
  decide (4 ≤ data.length) &&
    (crc32Calc (data.take (data.length - 4)) == leUint32 (data.drop (data.length - 4)))

theorem crc32Step_lt {r : Nat} (h : r < 2 ^ 32) : crc32Step r < 2 ^ 32 := by
  unfold crc32Step
  have h1 : r >>> 1 < 2 ^ 32 := by
    rw [Nat.shiftRight_eq_div_pow]
    omega
  by_cases hb : r &&& 1 = 1
  · simp only [hb, if_true]
    exact Nat.xor_lt_two_pow h1 (by norm_num)
  · simp only [hb, if_false]
    exact h1

theorem crc32Byte_lt {r : Nat} (b : Nat) (h : r < 2 ^ 32) (hb : b < 256) :
    crc32Byte r b < 2 ^ 32 := by
  unfold crc32Byte
  have h0 : r ^^^ b < 2 ^ 32 := Nat.xor_lt_two_pow h (by omega)
  exact crc32Step_lt (crc32Step_lt (crc32Step_lt (crc32Step_lt
    (crc32Step_lt (crc32Step_lt (crc32Step_lt (crc32Step_lt h0)))))))

theorem foldl_crc32Byte_lt (data : List Nat) (acc : Nat) (h : acc < 2 ^ 32)
    (hd : ∀ b ∈ data, b < 256) : data.foldl crc32Byte acc < 2 ^ 32 := by
  induction data generalizing acc with
  | nil => simpa using h
  | cons b rest ih =>
    simp only [List.foldl]
    exact ih _ (crc32Byte_lt b h (hd b (by simp)))
      (fun x hx => hd x (List.mem_cons_of_mem _ hx))

theorem crc32Update_lt (crc : Nat) (data : List Nat) (h : crc < 2 ^ 32)
    (hd : ∀ b ∈ data, b < 256) : crc32Update crc data < 2 ^ 32 := by
  unfold crc32Update
  have hinit : crc ^^^ 0xFFFFFFFF < 2 ^ 32 := Nat.xor_lt_two_pow h (by norm_num)
  exact Nat.xor_lt_two_pow (foldl_crc32Byte_lt data _ hinit hd) (by norm_num)

theorem putLE32_bytes_lt (v : Nat) : ∀ b ∈ putLE32 v, b < 256 := by
  intro b hb
  simp only [putLE32, List.mem_cons, List.not_mem_nil, or_false] at hb
  rcases hb with h | h | h | h <;> rw [h] <;> exact and255_lt _

theorem leUint32_putLE32 (v : Nat) (h : v < 2 ^ 32) : leUint32 (putLE32 v) = v := by
  apply Nat.eq_of_testBit_eq
  intro i
  have h255 : (255 : Nat) = 2 ^ 8 - 1 := by norm_num
  simp only [putLE32, leUint32, Nat.testBit_or, Nat.testBit_shiftLeft,
    Nat.testBit_shiftRight, Nat.testBit_and, h255, Nat.testBit_two_pow_sub_one]
  by_cases h1 : i < 8
  · simp [h1, show ¬ 8 ≤ i by omega, show ¬ 16 ≤ i by omega, show ¬ 24 ≤ i by omega]
  · by_cases h2 : i < 16
    · have e : 8 + (i - 8) = i := by omega
      simp [h1, h2, e, show 8 ≤ i by omega, show ¬ 16 ≤ i by omega,
        show ¬ 24 ≤ i by omega, show i - 8 < 8 by omega]
    · by_cases h3 : i < 24
      · have e : 16 + (i - 16) = i := by omega
        simp [h2, h3, e, show 8 ≤ i by omega, show 16 ≤ i by omega,
          show ¬ 24 ≤ i by omega, show ¬ i - 8 < 8 by omega, show i - 16 < 8 by omega]
      · by_cases h4 : i < 32
        · have e : 24 + (i - 24) = i := by omega
          simp [h3, h4, e, show 8 ≤ i by omega, show 16 ≤ i by omega,
            show 24 ≤ i by omega, show ¬ i - 8 < 8 by omega,
            show ¬ i - 16 < 8 by omega, show i - 24 < 8 by omega]
        · have hv : v.testBit i = false :=
            Nat.testBit_lt_two_pow
              (lt_of_lt_of_le h (Nat.pow_le_pow_right (by norm_num) (by omega)))
          simp [hv, show 8 ≤ i by omega, show 16 ≤ i by omega, show 24 ≤ i by omega,
            show ¬ i - 8 < 8 by omega, show ¬ i - 16 < 8 by omega,
            show ¬ i - 24 < 8 by omega]

/-! ## ZDLE escape codec (from `buildEscapeTable` / `escapeRequired` /
`escapeByte` and the transport writer)

`buildEscapeTable` takes a boolean `escapeAll`; the table entry of a
byte is one of `escSend` (0), `escMust` (1), `escIfAtCR` (2).  We model
the table as the function from byte to entry that the imperative
construction computes: the eight always-escaped control octets, the two
conditional CR octets, and — in escapeAll mode — the remaining control
octets `0x00-0x1f` and `0x80-0x9f`. -/

def escSend : Nat := 0
def escMust : Nat := 1
def escIfAtCR : Nat := 2

def escTable (escapeAll : Bool) (b : Nat) : Nat :=
  if b = 0x18 ∨ b = 0x10 ∨ b = 0x11 ∨ b = 0x13 ∨
     b = 0x90 ∨ b = 0x91 ∨ b = 0x93 ∨ b = 0x98 then escMust
  else if b = 0x0d ∨ b = 0x8d then escIfAtCR
  else if escapeAll ∧ (b < 0x20 ∨ (0x80 ≤ b ∧ b < 0xa0)) then escMust
  else escSend

def escapeRequired (escapeAll : Bool) (b lastSent : Nat) : Bool :=
  if escTable escapeAll b = escMust then true
  else if escTable escapeAll b = escIfAtCR then
    decide (lastSent = 0x40 ∨ lastSent = 0xc0)
  else false

/-- `writeEscapedByte` of the transport writer: output octets plus the
new `lastSent` state (the escaped form sets `lastSent` to the second,
XOR-translated octet). -/
def writeEscapedByteW (escapeAll : Bool) (b ls : Nat) : List Nat × Nat :=
  if escapeRequired escapeAll b ls then ([ZDLE, b ^^^ 0x40], b ^^^ 0x40)
  else ([b], b)

/-- `writeEscaped`: escape a byte list, threading `lastSent`. -/
def writeEscapedW (escapeAll : Bool) : List Nat → Nat → List Nat × Nat
  | [], ls => ([], ls)
  | b :: rest, ls =>
    let p := writeEscapedByteW escapeAll b ls
    let q := writeEscapedW escapeAll rest p.2
    (p.1 ++ q.1, q.2)

/-! ## Transport reader (from `reader.go`)

`zdlStep false` is `zdlRead`, `zdlStep true` is `zdlEscape`; both first
strip XON/XOFF octets (parity-insensitively) as `readByteStrip` does.
The result quadruple is (decoded byte, frame-end marker, remaining
stream, new consecutive-CAN count). -/

inductive ZErr where
  | eofErr
  | abortErr
  | crcErr
  | tooLongErr
  | frameEndErr
  | badHexErr
  | termErr
  | garbageErr
  | badEncErr
  deriving DecidableEq, Repr

def isStrippedByte (b : Nat) : Bool :=
  decide (b &&& 0x7f = XON ∨ b &&& 0x7f = XOFF)

def zdlStep : Bool → List Nat → Nat → Except ZErr (Nat × Nat × List Nat × Nat)
  | _, [], _ => .error .eofErr
  | false, b :: r, cc =>
    if isStrippedByte b then zdlStep false r cc
    else if b = ZDLE then
      if 5 ≤ cc + 1 then .error .abortErr else zdlStep true r (cc + 1)
    else .ok (b, 0, r, 0)
  | true, c :: r, cc =>
    if isStrippedByte c then zdlStep true r cc
    else if c = ZCRCE ∨ c = ZCRCG ∨ c = ZCRCQ ∨ c = ZCRCW then .ok (0, c, r, 0)
    else if c = ZRUB0 then .ok (0x7f, 0, r, 0)
    else if c = ZRUB1 then .ok (0xff, 0, r, 0)
    else if 0x40 ≤ c then .ok (c ^^^ 0x40, 0, r, 0)
    else if c = CAN then
      if 5 ≤ cc + 1 then .error .abortErr else zdlStep false r (cc + 1)
    else zdlStep false r cc

def zdlRead (s : List Nat) (cc : Nat) : Except ZErr (Nat × Nat × List Nat × Nat) :=
  zdlStep false s cc

/-! ### Per-byte decode/encode round trip -/

theorem zdlStep_false_cons (b : Nat) (r : List Nat) (cc : Nat) :
    zdlStep false (b :: r) cc =
      if isStrippedByte b then zdlStep false r cc
      else if b = ZDLE then
        if 5 ≤ cc + 1 then .error .abortErr else zdlStep true r (cc + 1)
      else .ok (b, 0, r, 0) := rfl

theorem zdlStep_true_cons (c : Nat) (r : List Nat) (cc : Nat) :
    zdlStep true (c :: r) cc =
      if isStrippedByte c then zdlStep true r cc
      else if c = ZCRCE ∨ c = ZCRCG ∨ c = ZCRCQ ∨ c = ZCRCW then .ok (0, c, r, 0)
      else if c = ZRUB0 then .ok (0x7f, 0, r, 0)
      else if c = ZRUB1 then .ok (0xff, 0, r, 0)
      else if 0x40 ≤ c then .ok (c ^^^ 0x40, 0, r, 0)
      else if c = CAN then
        if 5 ≤ cc + 1 then .error .abortErr else zdlStep false r (cc + 1)
      else zdlStep false r cc := rfl

set_option maxRecDepth 8000 in
/-- Finite check: any byte the table can escape XOR-translates to an
octet that the escape decoder maps straight back (not stripped, not a
frame-end marker, not a rubout code, and at or above `0x40`). -/
theorem escaped_form_safe : ∀ ea : Bool, ∀ b < 256, escTable ea b ≠ escSend →
    isStrippedByte (b ^^^ 0x40) = false ∧
    ¬(b ^^^ 0x40 = ZCRCE ∨ b ^^^ 0x40 = ZCRCG ∨ b ^^^ 0x40 = ZCRCQ ∨ b ^^^ 0x40 = ZCRCW) ∧
    b ^^^ 0x40 ≠ ZRUB0 ∧ b ^^^ 0x40 ≠ ZRUB1 ∧ 0x40 ≤ b ^^^ 0x40 := by decide

set_option maxRecDepth 8000 in
/-- Finite check: a byte the table does not force to be escaped is
neither stripped by the reader nor the `ZDLE` octet. -/
theorem raw_form_safe : ∀ ea : Bool, ∀ b < 256, escTable ea b ≠ escMust →
    isStrippedByte b = false ∧ b ≠ ZDLE := by decide

theorem escapeRequired_true_ne_send {ea : Bool} {b ls : Nat}
    (h : escapeRequired ea b ls = true) : escTable ea b ≠ escSend := by
  intro hs
  unfold escapeRequired at h
  rw [hs] at h
  simp [escSend, escMust, escIfAtCR] at h

theorem escapeRequired_false_ne_must {ea : Bool} {b ls : Nat}
    (h : escapeRequired ea b ls = false) : escTable ea b ≠ escMust := by
  intro hs
  unfold escapeRequired at h
  rw [hs] at h
  simp at h

/-- Decoding one encoded byte: `zdlRead` returns exactly the original
byte, no frame end, the untouched tail, and a reset CAN counter. -/
theorem zdlRead_one (ea : Bool) (b ls : Nat) (hb : b < 256) (rest : List Nat) :
    zdlRead ((writeEscapedByteW ea b ls).1 ++ rest) 0 = .ok (b, 0, rest, 0) := by
  unfold zdlRead writeEscapedByteW
  by_cases hreq : escapeRequired ea b ls
  · obtain ⟨hstrip, hmark, hr0, hr1, hge⟩ :=
      escaped_form_safe ea b hb (escapeRequired_true_ne_send hreq)
    rw [if_pos hreq]
    show zdlStep false (ZDLE :: (b ^^^ 0x40) :: rest) 0 = .ok (b, 0, rest, 0)
    rw [zdlStep_false_cons]
    rw [if_neg (by decide), if_pos rfl, if_neg (by decide)]
    rw [zdlStep_true_cons]
    rw [if_neg (by simp [hstrip]), if_neg hmark, if_neg hr0, if_neg hr1, if_pos hge]
    have e : (b ^^^ 0x40) ^^^ 0x40 = b := by
      rw [Nat.xor_assoc, Nat.xor_self, Nat.xor_zero]
    rw [e]
  · have hreqf : escapeRequired ea b ls = false := Bool.eq_false_iff.mpr hreq
    obtain ⟨hstrip, hnz⟩ := raw_form_safe ea b hb (escapeRequired_false_ne_must hreqf)
    rw [if_neg hreq]
    show zdlStep false (b :: rest) 0 = .ok (b, 0, rest, 0)
    rw [zdlStep_false_cons]
    rw [if_neg (by simp [hstrip]), if_neg hnz]

/-! ## Data subpackets (from `subpacket.go`) -/

/-- `sendSubpacket`: escaped payload, raw `ZDLE  end-type`, escaped CRC
(big-endian CRC-16 or little-endian CRC-32), and a raw XON after
`ZCRCW` subpackets.  Returns the octet stream and the final `lastSent`
state of the writer. -/
def sendSubpacket (use32 ea : Bool) (data : List Nat) (endType ls : Nat) :
    List Nat × Nat :=
  if use32 then
    let crc := crc32Update (crc32Update 0 data) [endType]
    let p := writeEscapedW ea data ls
    let q := writeEscapedW ea (putLE32 crc) endType
    (p.1 ++ [ZDLE, endType] ++ q.1 ++ (if endType = ZCRCW then [XON] else []),
     if endType = ZCRCW then XON else q.2)
  else
    let crc := crc16Finalize (crc16Update (crc16Update 0 data) [endType])
    let p := writeEscapedW ea data ls
    let q := writeEscapedW ea [(crc >>> 8) &&& 255, crc &&& 255] endType
    (p.1 ++ [ZDLE, endType] ++ q.1 ++ (if endType = ZCRCW then [XON] else []),
     if endType = ZCRCW then XON else q.2)

/-- Read `n` ZDLE-decoded octets, failing on any frame-end marker
(the CRC-read loops of `recvSubpacket` and `recvBinHeader`). -/
def zdlReadN : Nat → List Nat → Nat → Except ZErr (List Nat × List Nat × Nat)
  | 0, s, cc => .ok ([], s, cc)
  | n + 1, s, cc =>
    match zdlRead s cc with
    | .error e => .error e
    | .ok (b, fe, rest, cc1) =>
      if fe ≠ 0 then .error .frameEndErr
      else
        match zdlReadN n rest cc1 with
        | .error e => .error e
        | .ok (bs, r, cc2) => .ok (b :: bs, r, cc2)

/-- `recvSubpacketCRC16` loop.  The fuel argument is instantiated with
the stream length plus one by the packaged entry point. -/
def recvSP16 (maxLen : Nat) : Nat → List Nat → List Nat → Nat →
    Except ZErr (List Nat × Nat × List Nat)
  | 0, _, _, _ => .error .eofErr
  | fuel + 1, acc, s, cc =>
    match zdlRead s cc with
    | .error e => .error e
    | .ok (b, fe, rest, cc1) =>
      if fe ≠ 0 then
        match zdlReadN 2 rest cc1 with
        | .error e => .error e
        | .ok (cb, r2, _) =>
          let crc := crc16Finalize (crc16Update (crc16Update 0 acc) [fe])
          let recvCRC := (cb.headD 0 <<< 8) ||| cb.getD 1 0
          if crc = recvCRC then .ok (acc, fe, r2) else .error .crcErr
      else if maxLen ≤ acc.length then .error .tooLongErr
      else recvSP16 maxLen fuel (acc ++ [b]) rest cc1

/-- `recvSubpacketCRC32` loop. -/
def recvSP32 (maxLen : Nat) : Nat → List Nat → List Nat → Nat →
    Except ZErr (List Nat × Nat × List Nat)
  | 0, _, _, _ => .error .eofErr
  | fuel + 1, acc, s, cc =>
    match zdlRead s cc with
    | .error e => .error e
    | .ok (b, fe, rest, cc1) =>
      if fe ≠ 0 then
        match zdlReadN 4 rest cc1 with
        | .error e => .error e
        | .ok (cb, r2, _) =>
          let crc := crc32Update (crc32Update 0 acc) [fe]
          if crc = leUint32 cb then .ok (acc, fe, r2) else .error .crcErr
      else if maxLen ≤ acc.length then .error .tooLongErr
      else recvSP32 maxLen fuel (acc ++ [b]) rest cc1

/-- `recvSubpacket`: dispatch on the session CRC mode. -/
def recvSubpacket (use32 : Bool) (maxLen : Nat) (s : List Nat) (cc : Nat) :
    Except ZErr (List Nat × Nat × List Nat) :=
  if use32 then recvSP32 maxLen (s.length + 1) [] s cc
  else recvSP16 maxLen (s.length + 1) [] s cc

/-! ### Subpacket round-trip lemmas -/

theorem writeEscapedW_cons (ea : Bool) (b : Nat) (rest : List Nat) (ls : Nat) :
    (writeEscapedW ea (b :: rest) ls).1 =
      (writeEscapedByteW ea b ls).1 ++
        (writeEscapedW ea rest (writeEscapedByteW ea b ls).2).1 := rfl

theorem writeEscapedW_length (ea : Bool) (P : List Nat) (ls : Nat) :
    P.length ≤ (writeEscapedW ea P ls).1.length := by
  induction P generalizing ls with
  | nil => simp [writeEscapedW]
  | cons b rest ih =>
    rw [writeEscapedW_cons]
    have h1 : 1 ≤ (writeEscapedByteW ea b ls).1.length := by
      unfold writeEscapedByteW
      by_cases h : escapeRequired ea b ls <;> simp [h]
    have h2 := ih ((writeEscapedByteW ea b ls).2)
    simp only [List.length_append, List.length_cons]
    omega

theorem zdlReadN_escaped (ea : Bool) (bs : List Nat) (hbs : ∀ b ∈ bs, b < 256) :
    ∀ (ls : Nat) (tail : List Nat),
      zdlReadN bs.length ((writeEscapedW ea bs ls).1 ++ tail) 0 = .ok (bs, tail, 0) := by
  induction bs with
  | nil => intro ls tail; simp [writeEscapedW, zdlReadN]
  | cons b rest ih =>
    intro ls tail
    have hb : b < 256 := hbs b (by simp)
    have hs : (writeEscapedW ea (b :: rest) ls).1 ++ tail =
        (writeEscapedByteW ea b ls).1 ++
          ((writeEscapedW ea rest (writeEscapedByteW ea b ls).2).1 ++ tail) := by
      rw [writeEscapedW_cons, List.append_assoc]
    rw [List.length_cons, hs]
    simp only [zdlReadN, zdlRead_one ea b _ hb]
    rw [ih (fun x hx => hbs x (List.mem_cons_of_mem _ hx)) _ tail]
    simp

theorem recvSP16_payload (maxLen : Nat) (ea : Bool) (P : List Nat)
    (hP : ∀ b ∈ P, b < 256) :
    ∀ (acc : List Nat) (ls : Nat) (tail : List Nat) (fuel : Nat),
      acc.length + P.length ≤ maxLen → P.length < fuel →
      recvSP16 maxLen fuel acc ((writeEscapedW ea P ls).1 ++ tail) 0 =
        recvSP16 maxLen (fuel - P.length) (acc ++ P) tail 0 := by
  induction P with
  | nil =>
    intro acc ls tail fuel _ _
    simp [writeEscapedW]
  | cons b rest ih =>
    intro acc ls tail fuel hlen hfuel
    have hb : b < 256 := hP b (by simp)
    obtain ⟨f, rfl⟩ : ∃ f, fuel = f + 1 :=
      ⟨fuel - 1, by simp only [List.length_cons] at hfuel; omega⟩
    have hs : (writeEscapedW ea (b :: rest) ls).1 ++ tail =
        (writeEscapedByteW ea b ls).1 ++
          ((writeEscapedW ea rest (writeEscapedByteW ea b ls).2).1 ++ tail) := by
      rw [writeEscapedW_cons, List.append_assoc]
    rw [hs]
    simp only [recvSP16, zdlRead_one ea b _ hb]
    have hno : ¬ maxLen ≤ acc.length := by
      simp only [List.length_cons] at hlen; omega
    simp only [ne_eq, not_true_eq_false, if_false, if_neg hno, reduceIte]
    rw [ih (fun x hx => hP x (List.mem_cons_of_mem _ hx)) (acc ++ [b]) _ tail f
      (by simp only [List.length_append, List.length_cons, List.length_nil] at hlen ⊢; omega)
      (by simp only [List.length_cons] at hfuel; omega)]
    have e1 : f + 1 - (b :: rest).length = f - rest.length := by
      simp only [List.length_cons]; omega
    have e2 : (acc ++ [b]) ++ rest = acc ++ b :: rest := by simp
    rw [e1, e2]

theorem recvSP32_payload (maxLen : Nat) (ea : Bool) (P : List Nat)
    (hP : ∀ b ∈ P, b < 256) :
    ∀ (acc : List Nat) (ls : Nat) (tail : List Nat) (fuel : Nat),
      acc.length + P.length ≤ maxLen → P.length < fuel →
      recvSP32 maxLen fuel acc ((writeEscapedW ea P ls).1 ++ tail) 0 =
        recvSP32 maxLen (fuel - P.length) (acc ++ P) tail 0 := by
  induction P with
  | nil =>
    intro acc ls tail fuel _ _
    simp [writeEscapedW]
  | cons b rest ih =>
    intro acc ls tail fuel hlen hfuel
    have hb : b < 256 := hP b (by simp)
    obtain ⟨f, rfl⟩ : ∃ f, fuel = f + 1 :=
      ⟨fuel - 1, by simp only [List.length_cons] at hfuel; omega⟩
    have hs : (writeEscapedW ea (b :: rest) ls).1 ++ tail =
        (writeEscapedByteW ea b ls).1 ++
          ((writeEscapedW ea rest (writeEscapedByteW ea b ls).2).1 ++ tail) := by
      rw [writeEscapedW_cons, List.append_assoc]
    rw [hs]
    simp only [recvSP32, zdlRead_one ea b _ hb]
    have hno : ¬ maxLen ≤ acc.length := by
      simp only [List.length_cons] at hlen; omega
    simp only [ne_eq, not_true_eq_false, if_false, if_neg hno, reduceIte]
    rw [ih (fun x hx => hP x (List.mem_cons_of_mem _ hx)) (acc ++ [b]) _ tail f
      (by simp only [List.length_append, List.length_cons, List.length_nil] at hlen ⊢; omega)
      (by simp only [List.length_cons] at hfuel; omega)]
    have e1 : f + 1 - (b :: rest).length = f - rest.length := by
      simp only [List.length_cons]; omega
    have e2 : (acc ++ [b]) ++ rest = acc ++ b :: rest := by simp
    rw [e1, e2]

theorem zdlRead_endMarker (E : Nat)
    (hE : E = ZCRCE ∨ E = ZCRCG ∨ E = ZCRCQ ∨ E = ZCRCW) (rest : List Nat) (cc : Nat)
    (hcc : cc ≤ 3) :
    zdlRead (ZDLE :: E :: rest) cc = .ok (0, E, rest, 0) := by
  unfold zdlRead
  rw [zdlStep_false_cons]
  rw [if_neg (by decide), if_pos rfl, if_neg (by omega)]
  rw [zdlStep_true_cons]
  rcases hE with rfl | rfl | rfl | rfl <;>
    rw [if_neg (by decide), if_pos (by decide)]

theorem endMarker_ne_zero {E : Nat}
    (hE : E = ZCRCE ∨ E = ZCRCG ∨ E = ZCRCQ ∨ E = ZCRCW) : E ≠ 0 := by
  rcases hE with rfl | rfl | rfl | rfl <;> decide

theorem endMarker_lt {E : Nat}
    (hE : E = ZCRCE ∨ E = ZCRCG ∨ E = ZCRCQ ∨ E = ZCRCW) : E < 256 := by
  rcases hE with rfl | rfl | rfl | rfl <;> decide

set_option maxRecDepth 4000 in
set_option maxHeartbeats 2000000 in
theorem recvSP16_finish (maxLen : Nat) (ea : Bool) (acc : List Nat) (E : Nat)
    (hE : E = ZCRCE ∨ E = ZCRCG ∨ E = ZCRCQ ∨ E = ZCRCW) (tail : List Nat) (fuel : Nat)
    (hfuel : 0 < fuel) :
    recvSP16 maxLen fuel acc
      (ZDLE :: E ::
        ((writeEscapedW ea
            [(crc16Finalize (crc16Update (crc16Update 0 acc) [E]) >>> 8) &&& 255,
             crc16Finalize (crc16Update (crc16Update 0 acc) [E]) &&& 255] E).1 ++ tail)) 0 =
      .ok (acc, E, tail) := by
  obtain ⟨f, rfl⟩ : ∃ f, fuel = f + 1 := ⟨fuel - 1, by omega⟩
  have hC : crc16Finalize (crc16Update (crc16Update 0 acc) [E]) < 65536 := by
    rw [crc16Finalize_eq]; exact crc16UpdateByte_lt _ _
  obtain ⟨C, hCdef⟩ : ∃ C, crc16Finalize (crc16Update (crc16Update 0 acc) [E]) = C :=
    ⟨_, rfl⟩
  rw [hCdef] at hC
  rw [hCdef]
  have hhi : (C >>> 8) &&& 255 < 256 := and255_lt _
  have hlo : C &&& 255 < 256 := and255_lt _
  have hbs : ∀ b ∈ [(C >>> 8) &&& 255, C &&& 255], b < 256 := by
    intro b hb
    simp only [List.mem_cons, List.not_mem_nil, or_false] at hb
    rcases hb with rfl | rfl
    · exact hhi
    · exact hlo
  have hrd := zdlReadN_escaped ea [(C >>> 8) &&& 255, C &&& 255] hbs E tail
  rw [show ([(C >>> 8) &&& 255, C &&& 255] : List Nat).length = 2 from rfl] at hrd
  simp only [recvSP16]
  rw [zdlRead_endMarker E hE _ 0 (by omega)]
  simp only [if_pos (endMarker_ne_zero hE)]
  rw [hrd]
  simp only [List.headD_cons, List.getD_cons_succ, List.getD_cons_zero]
  rw [and255_of_lt (shiftRight8_lt hC)]
  simp [hiLo_or C hC, hCdef]

set_option maxRecDepth 4000 in
theorem recvSP32_finish (maxLen : Nat) (ea : Bool) (acc : List Nat)
    (hacc : ∀ b ∈ acc, b < 256) (E : Nat)
    (hE : E = ZCRCE ∨ E = ZCRCG ∨ E = ZCRCQ ∨ E = ZCRCW) (tail : List Nat) (fuel : Nat)
    (hfuel : 0 < fuel) :
    recvSP32 maxLen fuel acc
      (ZDLE :: E ::
        ((writeEscapedW ea (putLE32 (crc32Update (crc32Update 0 acc) [E])) E).1 ++ tail)) 0 =
      .ok (acc, E, tail) := by
  obtain ⟨f, rfl⟩ : ∃ f, fuel = f + 1 := ⟨fuel - 1, by omega⟩
  have hC : crc32Update (crc32Update 0 acc) [E] < 2 ^ 32 := by
    apply crc32Update_lt _ _ (crc32Update_lt _ _ (by norm_num) hacc)
    intro b hb
    simp only [List.mem_cons, List.not_mem_nil, or_false] at hb
    rw [hb]
    exact endMarker_lt hE
  obtain ⟨C, hCdef⟩ : ∃ C, crc32Update (crc32Update 0 acc) [E] = C := ⟨_, rfl⟩
  rw [hCdef] at hC
  rw [hCdef]
  have hrd := zdlReadN_escaped ea (putLE32 C) (putLE32_bytes_lt C) E tail
  simp only [recvSP32]
  rw [zdlRead_endMarker E hE _ 0 (by omega)]
  simp only [if_pos (endMarker_ne_zero hE)]
  rw [show (4 : Nat) = (putLE32 C).length from rfl]
  rw [hrd]
  have hle : leUint32 (putLE32 C) = C := leUint32_putLE32 C hC
  show (if crc32Update (crc32Update 0 acc) [E] = leUint32 (putLE32 C) then
      Except.ok (acc, E, tail) else Except.error ZErr.crcErr) =
    (Except.ok (acc, E, tail) : Except ZErr (List Nat × Nat × List Nat))
  rw [hle, hCdef, if_pos rfl]

/-- C1: for every payload `P` (all octet values allowed, including runs
of `ZDLE` octets and the empty payload) and every end type
`E ∈ {ZCRCE, ZCRCG, ZCRCQ, ZCRCW}`, under either escape mode and either
CRC mode, receiving the octet stream produced by `sendSubpacket P E`
with `recvSubpacket` (`maxLen ≥ |P|`) yields exactly `(P, E)` with no
error; the unread remainder is the trailing XON for `ZCRCW` and empty
otherwise. -/
theorem claim_C1_subpacket_round_trip (use32 ea : Bool) (P : List Nat)
    (E ls maxLen : Nat) (hP : ∀ b ∈ P, b < 256)
    (hE : E = ZCRCE ∨ E = ZCRCG ∨ E = ZCRCQ ∨ E = ZCRCW)
    (hm : P.length ≤ maxLen) :
    recvSubpacket use32 maxLen (sendSubpacket use32 ea P E ls).1 0 =
      .ok (P, E, if E = ZCRCW then [XON] else []) := by
  have hesc := writeEscapedW_length ea P ls
  cases use32 with
  | false =>
    have hsend : (sendSubpacket false ea P E ls).1 =
        (writeEscapedW ea P ls).1 ++
          (ZDLE :: E ::
            ((writeEscapedW ea
              [(crc16Finalize (crc16Update (crc16Update 0 P) [E]) >>> 8) &&& 255,
               crc16Finalize (crc16Update (crc16Update 0 P) [E]) &&& 255] E).1 ++
              (if E = ZCRCW then [XON] else []))) := by
      simp [sendSubpacket, List.append_assoc]
    show recvSP16 maxLen ((sendSubpacket false ea P E ls).1.length + 1) []
        (sendSubpacket false ea P E ls).1 0 = _
    rw [hsend]
    rw [recvSP16_payload maxLen ea P hP [] ls _ _ (by simpa using hm)
      (by simp only [List.length_append]; omega)]
    rw [List.nil_append]
    rw [recvSP16_finish maxLen ea P E hE _ _ (by simp only [List.length_append]; omega)]
  | true =>
    have hsend : (sendSubpacket true ea P E ls).1 =
        (writeEscapedW ea P ls).1 ++
          (ZDLE :: E ::
            ((writeEscapedW ea (putLE32 (crc32Update (crc32Update 0 P) [E])) E).1 ++
              (if E = ZCRCW then [XON] else []))) := by
      simp [sendSubpacket, List.append_assoc]
    show recvSP32 maxLen ((sendSubpacket true ea P E ls).1.length + 1) []
        (sendSubpacket true ea P E ls).1 0 = _
    rw [hsend]
    rw [recvSP32_payload maxLen ea P hP [] ls _ _ (by simpa using hm)
      (by simp only [List.length_append]; omega)]
    rw [List.nil_append]
    rw [recvSP32_finish maxLen ea P hP E hE _ _ (by simp only [List.length_append]; omega)]

theorem claim_C1_witness :
    recvSubpacket false 4
      (sendSubpacket false true [ZDLE, ZDLE, XON, 0xff] ZCRCW 0).1 0 =
        .ok ([ZDLE, ZDLE, XON, 0xff], ZCRCW, [XON]) := by
  have h := claim_C1_subpacket_round_trip false true [ZDLE, ZDLE, XON, 0xff] ZCRCW 0 4
    (by decide) (by decide) (by decide)
  simpa using h

/-! ## Frame headers (from `writer.go`)

`Header` carries an encoding octet, a frame-type octet (`ftype` — the
source calls the field `Type`) and the 4-octet `data` payload. -/

structure Header where
  encoding : Nat
  ftype : Nat
  data : List Nat
  deriving DecidableEq, Repr

/-- `Position`: header data as little-endian 32-bit offset. -/
def Header.position (h : Header) : Nat := leUint32 h.data

/-- `SetPosition` (the `uint32` cast of the Go source is the `% 2^32`). -/
def Header.setPosition (h : Header) (pos : Nat) : Header :=
  { h with data := putLE32 (pos % 4294967296) }

def Header.zf0 (h : Header) : Nat := h.data.getD 3 0
def Header.zf1 (h : Header) : Nat := h.data.getD 2 0
def Header.zf2 (h : Header) : Nat := h.data.getD 1 0
def Header.zf3 (h : Header) : Nat := h.data.getD 0 0
def Header.setZF0 (h : Header) (v : Nat) : Header := { h with data := h.data.set 3 v }
def Header.setZF1 (h : Header) (v : Nat) : Header := { h with data := h.data.set 2 v }
def Header.setZF2 (h : Header) (v : Nat) : Header := { h with data := h.data.set 1 v }
def Header.setZF3 (h : Header) (v : Nat) : Header := { h with data := h.data.set 0 v }

def makeHeader (t : Nat) : Header := ⟨0, t, [0, 0, 0, 0]⟩

def makePosHeader (t pos : Nat) : Header := (makeHeader t).setPosition pos

/-- `writeHex`: one octet as two lowercase hex digits. -/
def hexDigit (n : Nat) : Nat := if n < 10 then 48 + n else 87 + n

def writeHexByte (b : Nat) : List Nat := [hexDigit (b >>> 4), hexDigit (b &&& 15)]

/-- The hex-encoded section of a hex header: type, data and big-endian
CRC-16, two lowercase digits each. -/
def hexHeaderBody (t : Nat) (data : List Nat) : List Nat :=
  ((t :: data ++
      [(crc16Calc (t :: data) >>> 8) &&& 255, crc16Calc (t :: data) &&& 255]).map
    writeHexByte).flatten

/-- `sendHexHeader`: `ZPAD ZPAD ZDLE ZHEX`, hex payload and CRC, CR LF,
and XON except for `ZACK`/`ZFIN`. -/
def sendHexHeader (hdr : Header) : List Nat :=
  [ZPAD, ZPAD, ZDLE, ZHEX] ++ hexHeaderBody hdr.ftype hdr.data ++ [0x0d, 0x0a] ++
    (if hdr.ftype ≠ ZACK ∧ hdr.ftype ≠ ZFIN then [XON] else [])

/-- `sendBinHeader`: `ZPAD ZDLE enc` raw (leaving `lastSent = enc`),
then the escaped 5-octet payload and the escaped CRC. -/
def sendBinHeader (use32 ea : Bool) (hdr : Header) : List Nat :=
  if use32 then
    let crc := crc32Calc (hdr.ftype :: hdr.data)
    let p := writeEscapedW ea (hdr.ftype :: hdr.data) ZBIN32
    let q := writeEscapedW ea (putLE32 crc) p.2
    [ZPAD, ZDLE, ZBIN32] ++ p.1 ++ q.1
  else
    let crc := crc16Calc (hdr.ftype :: hdr.data)
    let p := writeEscapedW ea (hdr.ftype :: hdr.data) ZBIN
    let q := writeEscapedW ea [(crc >>> 8) &&& 255, crc &&& 255] p.2
    [ZPAD, ZDLE, ZBIN] ++ p.1 ++ q.1

/-- `hexVal` (lenient: lowercase and uppercase accepted). -/
def hexVal (b : Nat) : Option Nat :=
  if 48 ≤ b ∧ b ≤ 57 then some (b - 48)
  else if 97 ≤ b ∧ b ≤ 102 then some (b - 97 + 10)
  else if 65 ≤ b ∧ b ≤ 70 then some (b - 65 + 10)
  else none

/-- `readHex`: two raw octets, parity-masked, combined. -/
def readHexByte : List Nat → Except ZErr (Nat × List Nat)
  | hi :: lo :: r =>
    match hexVal (hi &&& 0x7f), hexVal (lo &&& 0x7f) with
    | some h, some l => .ok ((h <<< 4) ||| l, r)
    | _, _ => .error .badHexErr
  | _ => .error .eofErr

def readHexN : Nat → List Nat → Except ZErr (List Nat × List Nat)
  | 0, s => .ok ([], s)
  | n + 1, s =>
    match readHexByte s with
    | .error e => .error e
    | .ok (b, r) =>
      match readHexN n r with
      | .error e => .error e
      | .ok (bs, r2) => .ok (b :: bs, r2)

/-- `recvHexHeader` (stream after `ZPAD ZPAD ZDLE ZHEX`): 7 hex octets,
CRC check, CR LF terminator with `0x7F` parity masking, LF alone
tolerated, buffered XON consumed except after `ZACK`/`ZFIN`. -/
def recvHexHeader (s : List Nat) : Except ZErr (Header × List Nat) :=
  match readHexN 7 s with
  | .error e => .error e
  | .ok (raw, r) =>
    let hdr : Header := ⟨ZHEX, raw.headD 0, (raw.drop 1).take 4⟩
    if crc16Verify raw then
      match r with
      | [] => .error .eofErr
      | cr :: r2 =>
        if cr &&& 0x7f = 0x0d then
          match r2 with
          | [] => .error .eofErr
          | lf :: r3 =>
            if lf &&& 0x7f = 0x0a then
              if hdr.ftype ≠ ZACK ∧ hdr.ftype ≠ ZFIN then
                match r3 with
                | x :: r4 => if x &&& 0x7f = XON then .ok (hdr, r4) else .ok (hdr, r3)
                | [] => .ok (hdr, [])
              else .ok (hdr, r3)
            else .error .termErr
        else if cr &&& 0x7f = 0x0a then .ok (hdr, r2)
        else .error .termErr
    else .error .crcErr

/-- `recvBinHeader` (stream after `ZPAD ZDLE enc`): 5 ZDLE-decoded
payload octets, then the CRC octets, frame-end markers being protocol
errors; CRC verified over payload plus received CRC. -/
def recvBinHeader (crc32mode : Bool) (s : List Nat) (cc : Nat) :
    Except ZErr (Header × List Nat) :=
  match zdlReadN 5 s cc with
  | .error e => .error e
  | .ok (payload, r, cc1) =>
    let hdr : Header := ⟨if crc32mode then ZBIN32 else ZBIN, payload.headD 0, payload.drop 1⟩
    if crc32mode then
      match zdlReadN 4 r cc1 with
      | .error e => .error e
      | .ok (cb, r2, _) =>
        if crc32Verify (payload ++ cb) then .ok (hdr, r2) else .error .crcErr
    else
      match zdlReadN 2 r cc1 with
      | .error e => .error e
      | .ok (cb, r2, _) =>
        if crc16Verify (payload ++ cb) then .ok (hdr, r2) else .error .crcErr

/-- `scanForPad` loop (from `reader.go`): scan for
`ZPAD [ZPAD] ZDLE enc`, counting garbage and consecutive CANs; the
result carries the encoding octet, the remaining stream and the reader
CAN counter. -/
def scanLoop (gmax : Nat) : Nat → List Nat → Nat → Nat →
    Except ZErr (Nat × List Nat × Nat)
  | 0, _, _, _ => .error .eofErr
  | fuel + 1, s, g, cc =>
    match s with
    | [] => .error .eofErr
    | b :: r =>
      if b = CAN then
        if 5 ≤ cc + 1 then .error .abortErr
        else if gmax < g + 1 then .error .garbageErr
        else scanLoop gmax fuel r (g + 1) (cc + 1)
      else
        if b ≠ ZPAD then
          if gmax < g + 1 then .error .garbageErr
          else scanLoop gmax fuel r (g + 1) 0
        else
          match r with
          | [] => .error .eofErr
          | b2 :: r2 =>
            if b2 = ZPAD then
              match r2 with
              | [] => .error .eofErr
              | b3 :: r3 =>
                if b3 ≠ ZDLE then
                  if gmax < g + 1 then .error .garbageErr
                  else scanLoop gmax fuel r3 (g + 1) 0
                else
                  match r3 with
                  | [] => .error .eofErr
                  | enc :: r4 =>
                    if enc = ZBIN ∨ enc = ZHEX ∨ enc = ZBIN32 then .ok (enc, r4, 0)
                    else if enc = ZBINR32 ∨ enc = ZVBIN ∨ enc = ZVHEX ∨
                        enc = ZVBIN32 ∨ enc = ZVBINR32 then .error .badEncErr
                    else if gmax < g + 1 then .error .garbageErr
                    else scanLoop gmax fuel r4 (g + 1) 0
            else
              if b2 ≠ ZDLE then
                if gmax < g + 1 then .error .garbageErr
                else scanLoop gmax fuel r2 (g + 1) 0
              else
                match r2 with
                | [] => .error .eofErr
                | enc :: r3 =>
                  if enc = ZBIN ∨ enc = ZHEX ∨ enc = ZBIN32 then .ok (enc, r3, 0)
                  else if enc = ZBINR32 ∨ enc = ZVBIN ∨ enc = ZVHEX ∨
                      enc = ZVBIN32 ∨ enc = ZVBINR32 then .error .badEncErr
                  else if gmax < g + 1 then .error .garbageErr
                  else scanLoop gmax fuel r3 (g + 1) 0

def scanForPad (gmax : Nat) (s : List Nat) (g : Nat) :
    Except ZErr (Nat × List Nat × Nat) :=
  scanLoop gmax (s.length + 1) s g 0

/-- `recvHeader`: scan for the frame start, then dispatch on the
encoding octet. -/
def recvHeader (gmax : Nat) (s : List Nat) : Except ZErr (Header × List Nat) :=
  match scanForPad gmax s 0 with
  | .error e => .error e
  | .ok (enc, rest, cc) =>
    if enc = ZHEX then recvHexHeader rest
    else if enc = ZBIN then recvBinHeader false rest cc
    else if enc = ZBIN32 then recvBinHeader true rest cc
    else .error .badEncErr

/-! ### Header lemmas -/

theorem leUint32_as_sum (d0 d1 d2 d3 : Nat) (h0 : d0 < 256) (h1 : d1 < 256)
    (h2 : d2 < 256) (h3 : d3 < 256) :
    leUint32 [d0, d1, d2, d3] = d0 + 256 * d1 + 65536 * d2 + 16777216 * d3 := by
  have h01 : 2 ^ 8 * d1 + d0 = 2 ^ 8 * d1 ||| d0 :=
    Nat.mul_add_lt_is_or (by simpa using h0) d1
  have h012 : 2 ^ 16 * d2 + (2 ^ 8 * d1 + d0) = 2 ^ 16 * d2 ||| (2 ^ 8 * d1 + d0) :=
    Nat.mul_add_lt_is_or (by simp; omega) d2
  have h0123 : 2 ^ 24 * d3 + (2 ^ 16 * d2 + (2 ^ 8 * d1 + d0)) =
      2 ^ 24 * d3 ||| (2 ^ 16 * d2 + (2 ^ 8 * d1 + d0)) :=
    Nat.mul_add_lt_is_or (by simp; omega) d3
  have e : leUint32 [d0, d1, d2, d3] = ((d0 ||| d1 <<< 8) ||| d2 <<< 16) ||| d3 <<< 24 := rfl
  have s8 : d1 <<< 8 = 2 ^ 8 * d1 := by rw [Nat.shiftLeft_eq]; ring
  have s16 : d2 <<< 16 = 2 ^ 16 * d2 := by rw [Nat.shiftLeft_eq]; ring
  have s24 : d3 <<< 24 = 2 ^ 24 * d3 := by rw [Nat.shiftLeft_eq]; ring
  have sum_eq : d0 + 256 * d1 + 65536 * d2 + 16777216 * d3 =
      2 ^ 24 * d3 ||| (2 ^ 16 * d2 ||| (2 ^ 8 * d1 ||| d0)) := by
    calc d0 + 256 * d1 + 65536 * d2 + 16777216 * d3
        = 2 ^ 24 * d3 + (2 ^ 16 * d2 + (2 ^ 8 * d1 + d0)) := by simp; omega
      _ = 2 ^ 24 * d3 ||| (2 ^ 16 * d2 + (2 ^ 8 * d1 + d0)) := h0123
      _ = 2 ^ 24 * d3 ||| (2 ^ 16 * d2 ||| (2 ^ 8 * d1 + d0)) := by rw [h012]
      _ = 2 ^ 24 * d3 ||| (2 ^ 16 * d2 ||| (2 ^ 8 * d1 ||| d0)) := by rw [h01]
  rw [e, s8, s16, s24, sum_eq]
  ac_rfl

/-- C3: the flag accessors and the 32-bit position accessor read the
same 4-octet payload in opposite byte orders: `ZF0` is `Data[3]`, …,
`ZF3` is `Data[0]`, while `Position` is the little-endian 32-bit value
with `Data[0]` least significant. -/
theorem claim_C3_flag_position_layout (enc t d0 d1 d2 d3 : Nat)
    (h0 : d0 < 256) (h1 : d1 < 256) (h2 : d2 < 256) (h3 : d3 < 256) :
    (Header.mk enc t [d0, d1, d2, d3]).zf0 = d3 ∧
    (Header.mk enc t [d0, d1, d2, d3]).zf1 = d2 ∧
    (Header.mk enc t [d0, d1, d2, d3]).zf2 = d1 ∧
    (Header.mk enc t [d0, d1, d2, d3]).zf3 = d0 ∧
    (Header.mk enc t [d0, d1, d2, d3]).position =
      d0 + 256 * d1 + 65536 * d2 + 16777216 * d3 :=
  ⟨rfl, rfl, rfl, rfl, leUint32_as_sum d0 d1 d2 d3 h0 h1 h2 h3⟩

theorem claim_C3_witness :
    (Header.mk 0 ZACK [0x78, 0x56, 0x34, 0x12]).zf0 = 0x12 ∧
    (Header.mk 0 ZACK [0x78, 0x56, 0x34, 0x12]).zf1 = 0x34 ∧
    (Header.mk 0 ZACK [0x78, 0x56, 0x34, 0x12]).zf2 = 0x56 ∧
    (Header.mk 0 ZACK [0x78, 0x56, 0x34, 0x12]).zf3 = 0x78 ∧
    (Header.mk 0 ZACK [0x78, 0x56, 0x34, 0x12]).position = 0x12345678 := by
  have h := claim_C3_flag_position_layout 0 ZACK 0x78 0x56 0x34 0x12
    (by decide) (by decide) (by decide) (by decide)
  simpa using h

theorem scanLoop_hex (gmax fuel g : Nat) (rest : List Nat) :
    scanLoop gmax (fuel + 1) (ZPAD :: ZPAD :: ZDLE :: ZHEX :: rest) g 0 =
      .ok (ZHEX, rest, 0) := rfl

theorem scanLoop_bin (gmax fuel g : Nat) (enc : Nat)
    (henc : enc = ZBIN ∨ enc = ZBIN32) (rest : List Nat) :
    scanLoop gmax (fuel + 1) (ZPAD :: ZDLE :: enc :: rest) g 0 =
      .ok (enc, rest, 0) := by
  rcases henc with rfl | rfl <;> rfl

set_option maxRecDepth 2000 in
theorem hexVal_hexDigit : ∀ x < 16, hexVal (hexDigit x &&& 0x7f) = some x := by decide

set_option maxRecDepth 8000 in
theorem nibble_recompose : ∀ b < 256, ((b >>> 4) <<< 4) ||| (b &&& 15) = b := by decide

theorem readHexByte_writeHex (b : Nat) (hb : b < 256) (r : List Nat) :
    readHexByte (writeHexByte b ++ r) = .ok (b, r) := by
  have hhi : b >>> 4 < 16 := by rw [Nat.shiftRight_eq_div_pow]; omega
  have hlo : b &&& 15 < 16 := Nat.lt_succ_of_le Nat.and_le_right
  show readHexByte (hexDigit (b >>> 4) :: hexDigit (b &&& 15) :: r) = .ok (b, r)
  simp only [readHexByte, hexVal_hexDigit _ hhi, hexVal_hexDigit _ hlo]
  rw [nibble_recompose b hb]

theorem readHexN_chain (bs : List Nat) (hbs : ∀ b ∈ bs, b < 256) :
    ∀ r, readHexN bs.length ((bs.map writeHexByte).flatten ++ r) = .ok (bs, r) := by
  induction bs with
  | nil => intro r; simp [readHexN]
  | cons b rest ih =>
    intro r
    have hb : b < 256 := hbs b (by simp)
    have e : ((b :: rest).map writeHexByte).flatten ++ r =
        writeHexByte b ++ ((rest.map writeHexByte).flatten ++ r) := by simp
    rw [List.length_cons, e]
    simp only [readHexN, readHexByte_writeHex b hb]
    rw [ih (fun x hx => hbs x (List.mem_cons_of_mem _ hx))]

theorem crc16Verify_hex_raw (payload : List Nat) :
    crc16Verify
      (payload ++ [(crc16Calc payload >>> 8) &&& 255, crc16Calc payload &&& 255]) = true := by
  have hC : crc16Calc payload < 65536 := by
    rw [crc16Calc, crc16Finalize_eq]
    exact crc16UpdateByte_lt _ _
  rw [and255_of_lt (shiftRight8_lt hC)]
  exact crc16Verify_calc payload

theorem zdlReadN_escaped_nil (ea : Bool) (bs : List Nat) (hbs : ∀ b ∈ bs, b < 256)
    (ls : Nat) :
    zdlReadN bs.length (writeEscapedW ea bs ls).1 0 = .ok (bs, [], 0) := by
  have h := zdlReadN_escaped ea bs hbs ls []
  simpa using h

theorem crc32Verify_calc (payload : List Nat) (h : ∀ b ∈ payload, b < 256) :
    crc32Verify (payload ++ putLE32 (crc32Calc payload)) = true := by
  have hC : crc32Calc payload < 2 ^ 32 := crc32Update_lt 0 payload (by norm_num) h
  have hlen : (payload ++ putLE32 (crc32Calc payload)).length - 4 = payload.length := by
    simp [putLE32]
  unfold crc32Verify
  rw [hlen, List.take_left' rfl, List.drop_left' rfl, leUint32_putLE32 _ hC]
  simp [putLE32]

set_option maxRecDepth 2000 in
/-- Reduce `recvHexHeader` on a well-formed hex body followed by an
arbitrary terminator: the seven hex pairs decode, the CRC check passes,
and what remains is exactly the terminator handling of the source. -/
theorem recvHexHeader_reduce (t d0 d1 d2 d3 : Nat)
    (ht : t < 256) (h0 : d0 < 256) (h1 : d1 < 256) (h2 : d2 < 256) (h3 : d3 < 256)
    (term : List Nat) :
    recvHexHeader (hexHeaderBody t [d0, d1, d2, d3] ++ term) =
      (match term with
       | [] => .error .eofErr
       | cr :: r2 =>
         if cr &&& 0x7f = 0x0d then
           match r2 with
           | [] => .error .eofErr
           | lf :: r3 =>
             if lf &&& 0x7f = 0x0a then
               if t ≠ ZACK ∧ t ≠ ZFIN then
                 match r3 with
                 | x :: r4 =>
                   if x &&& 0x7f = XON then .ok (⟨ZHEX, t, [d0, d1, d2, d3]⟩, r4)
                   else .ok (⟨ZHEX, t, [d0, d1, d2, d3]⟩, r3)
                 | [] => .ok (⟨ZHEX, t, [d0, d1, d2, d3]⟩, [])
               else .ok (⟨ZHEX, t, [d0, d1, d2, d3]⟩, r3)
             else .error .termErr
         else if cr &&& 0x7f = 0x0a then .ok (⟨ZHEX, t, [d0, d1, d2, d3]⟩, r2)
         else .error .termErr) := by
  obtain ⟨C, hC⟩ : ∃ C, crc16Calc [t, d0, d1, d2, d3] = C := ⟨_, rfl⟩
  have hbody : hexHeaderBody t [d0, d1, d2, d3] =
      (([t, d0, d1, d2, d3, (C >>> 8) &&& 255, C &&& 255]).map writeHexByte).flatten := by
    show (([t, d0, d1, d2, d3] ++
        [(crc16Calc [t, d0, d1, d2, d3] >>> 8) &&& 255,
         crc16Calc [t, d0, d1, d2, d3] &&& 255]).map writeHexByte).flatten = _
    rw [hC]
    rfl
  have hbs : ∀ b ∈ [t, d0, d1, d2, d3, (C >>> 8) &&& 255, C &&& 255], b < 256 := by
    intro b hb
    simp only [List.mem_cons, List.not_mem_nil, or_false] at hb
    rcases hb with rfl | rfl | rfl | rfl | rfl | rfl | rfl
    exacts [ht, h0, h1, h2, h3, and255_lt _, and255_lt _]
  have hchain := readHexN_chain [t, d0, d1, d2, d3, (C >>> 8) &&& 255, C &&& 255] hbs term
  rw [show ([t, d0, d1, d2, d3, (C >>> 8) &&& 255, C &&& 255] : List Nat).length = 7
    from rfl] at hchain
  have hver : crc16Verify [t, d0, d1, d2, d3, (C >>> 8) &&& 255, C &&& 255] = true := by
    have h := crc16Verify_hex_raw [t, d0, d1, d2, d3]
    rw [hC] at h
    exact h
  rw [hbody]
  simp only [recvHexHeader, hchain, hver]
  rfl

/-- C2: decoding the octet stream produced by `sendHexHeader` for
header `(T, D)` yields `(T, D)` with encoding `ZHEX`; decoding the
output of `sendBinHeader` yields `(T, D)` with encoding `ZBIN` in
CRC-16 mode and `ZBIN32` in CRC-32 mode. -/
theorem claim_C2_header_round_trip (ea : Bool) (t d0 d1 d2 d3 gmax : Nat)
    (ht : t < 256) (h0 : d0 < 256) (h1 : d1 < 256) (h2 : d2 < 256) (h3 : d3 < 256) :
    recvHeader gmax (sendHexHeader ⟨0, t, [d0, d1, d2, d3]⟩) =
        .ok (⟨ZHEX, t, [d0, d1, d2, d3]⟩, []) ∧
    recvHeader gmax (sendBinHeader false ea ⟨0, t, [d0, d1, d2, d3]⟩) =
        .ok (⟨ZBIN, t, [d0, d1, d2, d3]⟩, []) ∧
    recvHeader gmax (sendBinHeader true ea ⟨0, t, [d0, d1, d2, d3]⟩) =
        .ok (⟨ZBIN32, t, [d0, d1, d2, d3]⟩, []) := by
  have hbs5 : ∀ b ∈ [t, d0, d1, d2, d3], b < 256 := by
    intro b hb
    simp only [List.mem_cons, List.not_mem_nil, or_false] at hb
    rcases hb with rfl | rfl | rfl | rfl | rfl
    exacts [ht, h0, h1, h2, h3]
  refine ⟨?_, ?_, ?_⟩
  · have hsend : sendHexHeader ⟨0, t, [d0, d1, d2, d3]⟩ =
        ZPAD :: ZPAD :: ZDLE :: ZHEX ::
          (hexHeaderBody t [d0, d1, d2, d3] ++
            (0x0d :: 0x0a :: (if t ≠ ZACK ∧ t ≠ ZFIN then [XON] else []))) := by
      simp [sendHexHeader, List.append_assoc]
    rw [hsend]
    simp only [recvHeader, scanForPad]
    rw [scanLoop_hex]
    show recvHexHeader (hexHeaderBody t [d0, d1, d2, d3] ++
      (0x0d :: 0x0a :: (if t ≠ ZACK ∧ t ≠ ZFIN then [XON] else []))) = _
    rw [recvHexHeader_reduce t d0 d1 d2 d3 ht h0 h1 h2 h3]
    by_cases hT : t ≠ ZACK ∧ t ≠ ZFIN
    · simp only [if_pos hT]
      rfl
    · simp only [if_neg hT]
      rfl
  · have hsend : sendBinHeader false ea ⟨0, t, [d0, d1, d2, d3]⟩ =
        ZPAD :: ZDLE :: ZBIN ::
          ((writeEscapedW ea [t, d0, d1, d2, d3] ZBIN).1 ++
            (writeEscapedW ea
              [(crc16Calc [t, d0, d1, d2, d3] >>> 8) &&& 255,
               crc16Calc [t, d0, d1, d2, d3] &&& 255]
              (writeEscapedW ea [t, d0, d1, d2, d3] ZBIN).2).1) := by
      simp [sendBinHeader, List.append_assoc]
    rw [hsend]
    simp only [recvHeader, scanForPad]
    rw [scanLoop_bin _ _ _ ZBIN (Or.inl rfl)]
    show recvBinHeader false _ 0 = _
    have h5 := zdlReadN_escaped ea [t, d0, d1, d2, d3] hbs5 ZBIN
      ((writeEscapedW ea
        [(crc16Calc [t, d0, d1, d2, d3] >>> 8) &&& 255,
         crc16Calc [t, d0, d1, d2, d3] &&& 255]
        (writeEscapedW ea [t, d0, d1, d2, d3] ZBIN).2).1)
    rw [show ([t, d0, d1, d2, d3] : List Nat).length = 5 from rfl] at h5
    have hbs2 : ∀ b ∈ [(crc16Calc [t, d0, d1, d2, d3] >>> 8) &&& 255,
        crc16Calc [t, d0, d1, d2, d3] &&& 255], b < 256 := by
      intro b hb
      simp only [List.mem_cons, List.not_mem_nil, or_false] at hb
      rcases hb with rfl | rfl
      exacts [and255_lt _, and255_lt _]
    have h2c := zdlReadN_escaped_nil ea
      [(crc16Calc [t, d0, d1, d2, d3] >>> 8) &&& 255,
       crc16Calc [t, d0, d1, d2, d3] &&& 255] hbs2
      (writeEscapedW ea [t, d0, d1, d2, d3] ZBIN).2
    rw [show ([(crc16Calc [t, d0, d1, d2, d3] >>> 8) &&& 255,
      crc16Calc [t, d0, d1, d2, d3] &&& 255] : List Nat).length = 2 from rfl] at h2c
    simp only [recvBinHeader, h5, h2c, crc16Verify_hex_raw [t, d0, d1, d2, d3]]
    rfl
  · have hsend : sendBinHeader true ea ⟨0, t, [d0, d1, d2, d3]⟩ =
        ZPAD :: ZDLE :: ZBIN32 ::
          ((writeEscapedW ea [t, d0, d1, d2, d3] ZBIN32).1 ++
            (writeEscapedW ea (putLE32 (crc32Calc [t, d0, d1, d2, d3]))
              (writeEscapedW ea [t, d0, d1, d2, d3] ZBIN32).2).1) := by
      simp [sendBinHeader, List.append_assoc]
    rw [hsend]
    simp only [recvHeader, scanForPad]
    rw [scanLoop_bin _ _ _ ZBIN32 (Or.inr rfl)]
    show recvBinHeader true _ 0 = _
    have h5 := zdlReadN_escaped ea [t, d0, d1, d2, d3] hbs5 ZBIN32
      ((writeEscapedW ea (putLE32 (crc32Calc [t, d0, d1, d2, d3]))
        (writeEscapedW ea [t, d0, d1, d2, d3] ZBIN32).2).1)
    rw [show ([t, d0, d1, d2, d3] : List Nat).length = 5 from rfl] at h5
    have h4c := zdlReadN_escaped_nil ea (putLE32 (crc32Calc [t, d0, d1, d2, d3]))
      (putLE32_bytes_lt _) (writeEscapedW ea [t, d0, d1, d2, d3] ZBIN32).2
    rw [show (putLE32 (crc32Calc [t, d0, d1, d2, d3])).length = 4 from rfl] at h4c
    simp only [recvBinHeader, h5, h4c, crc32Verify_calc [t, d0, d1, d2, d3] hbs5]
    rfl

theorem claim_C2_witness :
    recvHeader 1200 (sendHexHeader ⟨0, ZRPOS, [0x78, 0x56, 0x34, 0x12]⟩) =
        .ok (⟨ZHEX, ZRPOS, [0x78, 0x56, 0x34, 0x12]⟩, []) ∧
    recvHeader 1200 (sendBinHeader false false ⟨0, ZRPOS, [0x78, 0x56, 0x34, 0x12]⟩) =
        .ok (⟨ZBIN, ZRPOS, [0x78, 0x56, 0x34, 0x12]⟩, []) ∧
    recvHeader 1200 (sendBinHeader true false ⟨0, ZRPOS, [0x78, 0x56, 0x34, 0x12]⟩) =
        .ok (⟨ZBIN32, ZRPOS, [0x78, 0x56, 0x34, 0x12]⟩, []) :=
  claim_C2_header_round_trip false ZRPOS 0x78 0x56 0x34 0x12 1200
    (by decide) (by decide) (by decide) (by decide) (by decide)

/-- C8 (amended): when receiving a hex header the terminator octets
CR, LF and XON are masked with `0x7F` before comparison, and a
terminator consisting of LF alone is tolerated; CR however must be
followed by LF (CR alone is not tolerated — see the counterexample). -/
theorem claim_C8_hex_terminator (t d0 d1 d2 d3 : Nat)
    (ht : t < 256) (h0 : d0 < 256) (h1 : d1 < 256) (h2 : d2 < 256) (h3 : d3 < 256) :
    (∀ cr lf : Nat, ∀ tail : List Nat, cr &&& 0x7f = 0x0d → lf &&& 0x7f = 0x0a →
      ∃ rest, recvHexHeader (hexHeaderBody t [d0, d1, d2, d3] ++ cr :: lf :: tail) =
        .ok (⟨ZHEX, t, [d0, d1, d2, d3]⟩, rest)) ∧
    (∀ lfb : Nat, ∀ tail : List Nat, lfb &&& 0x7f = 0x0a →
      recvHexHeader (hexHeaderBody t [d0, d1, d2, d3] ++ lfb :: tail) =
        .ok (⟨ZHEX, t, [d0, d1, d2, d3]⟩, tail)) ∧
    (∀ cr lf x : Nat, ∀ tail : List Nat, t ≠ ZACK → t ≠ ZFIN →
      cr &&& 0x7f = 0x0d → lf &&& 0x7f = 0x0a → x &&& 0x7f = XON →
      recvHexHeader (hexHeaderBody t [d0, d1, d2, d3] ++ cr :: lf :: x :: tail) =
        .ok (⟨ZHEX, t, [d0, d1, d2, d3]⟩, tail)) := by
  refine ⟨?_, ?_, ?_⟩
  · intro cr lf tail hcr hlf
    rw [recvHexHeader_reduce t d0 d1 d2 d3 ht h0 h1 h2 h3]
    simp only [if_pos hcr, if_pos hlf]
    by_cases hT : t ≠ ZACK ∧ t ≠ ZFIN
    · rw [if_pos hT]
      cases tail with
      | nil => exact ⟨[], rfl⟩
      | cons x r4 =>
        by_cases hx : x &&& 0x7f = XON
        · exact ⟨r4, by simp only [if_pos hx]⟩
        · exact ⟨x :: r4, by simp only [if_neg hx]⟩
    · exact ⟨tail, by rw [if_neg hT]⟩
  · intro lfb tail hlf
    rw [recvHexHeader_reduce t d0 d1 d2 d3 ht h0 h1 h2 h3]
    have hne : ¬ lfb &&& 0x7f = 0x0d := by rw [hlf]; decide
    simp only [if_neg hne, if_pos hlf]
  · intro cr lf x tail hA hF hcr hlf hx
    rw [recvHexHeader_reduce t d0 d1 d2 d3 ht h0 h1 h2 h3]
    simp only [if_pos hcr, if_pos hlf, if_pos (And.intro hA hF), if_pos hx]

set_option maxRecDepth 8000 in
/-- C8 counterexample: the claim as stated says a terminator of CR
alone is tolerated.  It is not: after a valid hex body for a `ZRINIT`
header, a lone CR followed by the next frame octet (`ZPAD`) makes
`recvHexHeader` fail with a terminator error instead of returning the
header. -/
theorem claim_C8_cr_alone_rejected :
    recvHexHeader (hexHeaderBody ZRINIT [0, 0, 0, 0] ++ [0x0d, ZPAD]) =
      .error .termErr := by rfl

theorem claim_C8_witness :
    (∃ rest, recvHexHeader (hexHeaderBody ZRINIT [0, 0, 0, 0] ++ 0x8d :: 0x8a :: []) =
      .ok (⟨ZHEX, ZRINIT, [0, 0, 0, 0]⟩, rest)) ∧
    recvHexHeader (hexHeaderBody ZRINIT [0, 0, 0, 0] ++ 0x0a :: [ZPAD]) =
      .ok (⟨ZHEX, ZRINIT, [0, 0, 0, 0]⟩, [ZPAD]) ∧
    recvHexHeader (hexHeaderBody ZRINIT [0, 0, 0, 0] ++ 0x0d :: 0x0a :: 0x91 :: [ZPAD]) =
      .ok (⟨ZHEX, ZRINIT, [0, 0, 0, 0]⟩, [ZPAD]) := by
  have h := claim_C8_hex_terminator ZRINIT 0 0 0 0
    (by decide) (by decide) (by decide) (by decide) (by decide)
  exact ⟨h.1 0x8d 0x8a [] (by decide) (by decide),
    h.2.1 0x0a [ZPAD] (by decide),
    h.2.2 0x0d 0x0a 0x91 [ZPAD] (by decide) (by decide) (by decide) (by decide) (by decide)⟩

/-! ## Sender per-file state (`runSender` local variables, src/sender.go) -/

/-- The sender state machine's mutable per-file variables (the `runSender`
locals at src/sender.go lines 28-46). -/
structure SenderVars where
  fileOffset   : Nat
  bytesSent    : Nat
  retries      : Nat
  blockSize    : Nat
  goodBlocks   : Nat
  goodNeeded   : Nat
  unreliable   : Bool
  zcrcwNext    : Bool
  zcrcwRetries : Nat
  deriving DecidableEq, Repr

/-- Initial values of the `runSender` locals: Go zero values, then
`blockSize = 256; goodNeeded = 8`. -/
def senderInit : SenderVars :=
  { fileOffset := 0, bytesSent := 0, retries := 0, blockSize := 256,
    goodBlocks := 0, goodNeeded := 8, unreliable := false,
    zcrcwNext := false, zcrcwRetries := 0 }

/-- The reset block of the `stxNextFile` state (src/sender.go lines
142-147): it assigns exactly `fileOffset`, `bytesSent`, `retries`,
`goodBlocks`, `zcrcwNext` and `zcrcwRetries`. -/
def stxNextFileReset (v : SenderVars) : SenderVars :=
  { v with fileOffset := 0, bytesSent := 0, retries := 0,
           goodBlocks := 0, zcrcwNext := false, zcrcwRetries := 0 }

/-- The `ZRPOS` recovery block of the `stxData` state (src/sender.go
lines 255-262, repeated verbatim at the window-wait and `ZCRCQ`
response sites). -/
def zrposRecovery (v : SenderVars) (newPos : Nat) : SenderVars :=
  { v with fileOffset := newPos, bytesSent := newPos,
           blockSize := max (v.blockSize / 4) 32, goodBlocks := 0,
           unreliable := true, zcrcwNext := true, zcrcwRetries := 0 }

/-- The block-size adaptation threshold (src/sender.go lines 471-474):
`adaptNeeded := goodNeeded; if unreliable { adaptNeeded = 16 }`. -/
def adaptNeeded (v : SenderVars) : Nat :=
  if v.unreliable then 16 else v.goodNeeded

/-- C4 counterexample: reach the `stxNextFile` reset from a state the
`ZRPOS` recovery produced (block size quartered to 64, unreliable flag
set).  The reset leaves `blockSize = 64 ≠ 256` and `unreliable = true`,
so it does not restore the claimed block size 256 or clear the
unreliable flag; `goodNeeded` is 8 only because nothing ever writes it. -/
theorem claim_C4_counterexample :
    (stxNextFileReset (zrposRecovery senderInit 100)).blockSize ≠ 256 ∧
    (stxNextFileReset (zrposRecovery senderInit 100)).blockSize = 64 ∧
    (stxNextFileReset (zrposRecovery senderInit 100)).unreliable ≠ false := by
  refine ⟨by decide, rfl, by decide⟩

/-- claim C4 (amended): the `stxNextFile` state resets the per-file
variables `fileOffset`, `bytesSent`, `retries`, `goodBlocks`,
`zcrcwNext` and `zcrcwRetries` to their zero values, and leaves
`blockSize`, `goodNeeded` and `unreliable` unchanged from the previous
file (it does not reset them to 256 / 8 / false). -/
theorem claim_C4_next_file_reset (v : SenderVars) :
    (stxNextFileReset v).fileOffset = 0 ∧
    (stxNextFileReset v).bytesSent = 0 ∧
    (stxNextFileReset v).retries = 0 ∧
    (stxNextFileReset v).goodBlocks = 0 ∧
    (stxNextFileReset v).zcrcwNext = false ∧
    (stxNextFileReset v).zcrcwRetries = 0 ∧
    (stxNextFileReset v).blockSize = v.blockSize ∧
    (stxNextFileReset v).goodNeeded = v.goodNeeded ∧
    (stxNextFileReset v).unreliable = v.unreliable :=
  ⟨rfl, rfl, rfl, rfl, rfl, rfl, rfl, rfl, rfl⟩

/-- C5 counterexample: from the initial block size 256, the `ZRPOS`
recovery produces block size `max (256 / 4) 32 = 64`, not the claimed
halving `max (256 / 2) 32 = 128`: the code quarters the block size. -/
theorem claim_C5_counterexample :
    (zrposRecovery senderInit 0).blockSize = 64 ∧
    max (senderInit.blockSize / 2) 32 = 128 := by
  refine ⟨rfl, rfl⟩

/-- The sender state machine's states (the `senderState` enum,
src/sender.go lines 10-24). -/
inductive SenderState where
  | stxInit | stxSInit | stxFileInfo | stxFileInfoAck | stxData
  | stxEOF | stxEOFAck | stxNextFile | stxFin | stxFinAck | stxDone
  deriving DecidableEq, Repr

/-- The full `ZRPOS` case of the Data state's reverse-channel and
response switches (src/sender.go lines 252-264, repeated verbatim at
the window-wait, `ZCRCW`-flush and `ZCRCQ`-response sites): the
recovery variable updates, then `state = stxData` and
`sendLoop = true` to break the inner send loop and restart the Data
state. -/
def zrposCase (v : SenderVars) (newPos : Nat) : SenderVars × SenderState × Bool :=
  (zrposRecovery v newPos, SenderState.stxData, true)

/-- The entry of the `stxData` state (src/sender.go lines 221-226;
`sendBinHeaderWithZnulls`, src/writer.go lines 1350-1358): `Znulls`
null bytes, then a binary `ZDATA` header at the current file offset. -/
def stxDataEnter (znulls : Nat) (use32 ea : Bool) (v : SenderVars) : List Nat :=
  List.replicate znulls 0 ++ sendBinHeader use32 ea (makePosHeader ZDATA v.fileOffset)

/-- claim C5 (amended): on `ZRPOS` during the Data state the sender
seeks to the received position (`fileOffset` and `bytesSent` both set
to it), quarters the block size with a floor of 32 (`max (blockSize/4)
32`, not halving), resets the good-block counter, sets the unreliable
flag — which raises the adaptation threshold to 16 — schedules a
`ZCRCW` end-type for the next subpacket with its retry counter
cleared, and restarts the Data state: `state = stxData` with the
inner send loop broken, so the state entry sends a fresh binary
`ZDATA` header (after the configured null bytes) whose type is
`ZDATA` and whose position is the sought offset. -/
theorem claim_C5_zrpos_recovery (v : SenderVars) (p znulls : Nat) (use32 ea : Bool) :
    (zrposCase v p).1.fileOffset = p ∧
    (zrposCase v p).1.bytesSent = p ∧
    (zrposCase v p).1.blockSize = max (v.blockSize / 4) 32 ∧
    (zrposCase v p).1.goodBlocks = 0 ∧
    (zrposCase v p).1.unreliable = true ∧
    adaptNeeded (zrposCase v p).1 = 16 ∧
    (zrposCase v p).1.zcrcwNext = true ∧
    (zrposCase v p).1.zcrcwRetries = 0 ∧
    (zrposCase v p).2.1 = SenderState.stxData ∧
    (zrposCase v p).2.2 = true ∧
    stxDataEnter znulls use32 ea (zrposCase v p).1 =
      List.replicate znulls 0 ++ sendBinHeader use32 ea (makePosHeader ZDATA p) ∧
    (makePosHeader ZDATA ((zrposCase v p).1.fileOffset)).ftype = ZDATA ∧
    (makePosHeader ZDATA ((zrposCase v p).1.fileOffset)).position = p % 4294967296 := by
  refine ⟨rfl, rfl, rfl, rfl, rfl, rfl, rfl, rfl, rfl, rfl, rfl, rfl, ?_⟩
  show leUint32 (putLE32 (p % 4294967296)) = p % 4294967296
  refine leUint32_putLE32 _ ?_
  have h : p % 4294967296 < 4294967296 := Nat.mod_lt _ (by norm_num)
  norm_num
  exact h

/-! ## Consecutive-CAN abort accounting -/

theorem zdlStep_false_CAN (r : List Nat) (cc : Nat) :
    zdlStep false (CAN :: r) cc =
      if 5 ≤ cc + 1 then .error .abortErr else zdlStep true r (cc + 1) := by
  rw [zdlStep_false_cons, if_neg (by decide), if_pos (by decide)]

theorem zdlStep_true_CAN (r : List Nat) (cc : Nat) :
    zdlStep true (CAN :: r) cc =
      if 5 ≤ cc + 1 then .error .abortErr else zdlStep false r (cc + 1) := by
  rw [zdlStep_true_cons, if_neg (by decide), if_neg (by decide),
    if_neg (by decide), if_neg (by decide), if_neg (by decide), if_pos rfl]

/-- C6 counterexample: a stream whose octets 2-6 are five consecutive
raw CAN bytes, all of which `scanForPad` consumes, yet the scan
succeeds with a `ZHEX` frame start instead of aborting: the reads
behind a `ZPAD` do not touch the consecutive-CAN counter (the first
CAN is taken for the frame's `ZDLE`, the second for its encoding
octet, and only the remaining three are counted). -/
theorem claim_C6_counterexample :
    scanForPad 1200 ([ZPAD] ++ List.replicate 5 CAN ++ [ZPAD, ZPAD, ZDLE, ZHEX]) 0 =
      .ok (ZHEX, [], 0) := rfl

/-- claim C6 (amended): in the ZDLE decoder (`zdlRead`/`zdlEscape`
path), five consecutive raw CAN octets abort the read with the
dedicated abort error whatever the counter already holds, and a
successfully returned plain byte resets the consecutive-CAN counter to
0.  The claim's "at any point" is too strong: `scanForPad`'s reads
that follow a `ZPAD` byte do not count CAN octets. -/
theorem claim_C6_can_abort (cc : Nat) (rest : List Nat) (b : Nat)
    (hb1 : isStrippedByte b = false) (hb2 : b ≠ ZDLE) :
    zdlRead (List.replicate 5 CAN ++ rest) cc = .error .abortErr ∧
    zdlRead (b :: rest) cc = .ok (b, 0, rest, 0) := by
  constructor
  · show zdlStep false (CAN :: CAN :: CAN :: CAN :: CAN :: rest) cc = .error .abortErr
    match cc with
    | 0 => simp [zdlStep_false_CAN, zdlStep_true_CAN]
    | 1 => simp [zdlStep_false_CAN, zdlStep_true_CAN]
    | 2 => simp [zdlStep_false_CAN, zdlStep_true_CAN]
    | 3 => simp [zdlStep_false_CAN, zdlStep_true_CAN]
    | n + 4 => rw [zdlStep_false_CAN, if_pos (by omega)]
  · show zdlStep false (b :: rest) cc = .ok (b, 0, rest, 0)
    rw [zdlStep_false_cons]
    simp [hb1, hb2]

/-- C6 witness: five CAN octets with the counter already at 3 abort;
a plain byte (`'A'`) is returned with the counter cleared to 0. -/
theorem claim_C6_witness :
    zdlRead (List.replicate 5 CAN ++ [0x42]) 3 = .error .abortErr ∧
    zdlRead (0x41 :: [0x42]) 3 = .ok (0x41, 0, [0x42], 0) :=
  claim_C6_can_abort 3 [0x42] 0x41 (by decide) (by decide)

/-! ## Receiver data-subpacket dispatch (src/receiver.go) -/

/-- One iteration of the `receiveDataSubpackets` loop after a
successful `recvSubpacket`, given the current file offset, the
subpacket's payload and its end type (src/receiver.go lines 326-360).
Returns the updated offset, the bytes written to the file, the bytes
sent back to the sender, and whether the inner loop returns.  The
offset advances only inside the `len(data) > 0` guard; an end type
outside the four cases falls out of the switch and the loop
continues. -/
def receiveDataStep (offset : Nat) (data : List Nat) (endType : Nat) :
    Nat × List Nat × List Nat × Bool :=
  let offset' := if 0 < data.length then offset + data.length else offset
  if endType = ZCRCG then (offset', data, [], false)
  else if endType = ZCRCQ then
    (offset', data, sendHexHeader (makePosHeader ZACK offset'), false)
  else if endType = ZCRCW then
    (offset', data, sendHexHeader (makePosHeader ZACK offset'), true)
  else if endType = ZCRCE then (offset', data, [], true)
  else (offset', data, [], false)

/-- claim C7: after writing the payload and advancing the offset by its
length, the receiver's data loop dispatches on the end type: `ZCRCG`
continues with no response; `ZCRCQ` sends `ZACK` at the current
position and continues; `ZCRCW` sends `ZACK` at the current position
and returns from the inner loop; `ZCRCE` returns with no response. -/
theorem claim_C7_subpacket_dispatch (offset : Nat) (data : List Nat) :
    receiveDataStep offset data ZCRCG = (offset + data.length, data, [], false) ∧
    receiveDataStep offset data ZCRCQ =
      (offset + data.length, data,
        sendHexHeader (makePosHeader ZACK (offset + data.length)), false) ∧
    receiveDataStep offset data ZCRCW =
      (offset + data.length, data,
        sendHexHeader (makePosHeader ZACK (offset + data.length)), true) ∧
    receiveDataStep offset data ZCRCE = (offset + data.length, data, [], true) := by
  have hoff : (if 0 < data.length then offset + data.length else offset) =
      offset + data.length := by
    cases data <;> simp
  refine ⟨?_, ?_, ?_, ?_⟩ <;>
    simp [receiveDataStep, hoff, ZCRCG, ZCRCQ, ZCRCW, ZCRCE]

/-! ## ZFILE file-information parsing (`parseFileInfo`) -/

/-- The `FileInfo` fields `parseFileInfo` fills: the filename as raw
bytes, the size, the modification time (`none` for Go's zero
`time.Time`), the mode, and the two batch hints. -/
structure FileInfoM where
  name : List Nat
  size : Int
  modTime : Option Int
  mode : Nat
  filesRemaining : Int
  bytesRemaining : Int
  deriving DecidableEq, Repr

/-- Index of the first NUL byte, if any (the `nullIdx` scan). -/
def findNul : List Nat → Option Nat
  | [] => none
  | b :: rest => if b = 0 then some 0 else (findNul rest).map (· + 1)

/-- ASCII whitespace as `strings.Fields` splits the metadata (space,
TAB, LF, VT, FF, CR).  Multi-byte UTF-8 space runes cannot occur
inside metadata whose fields parse as numbers and are not modelled. -/
def isGoSpace (b : Nat) : Bool :=
  b == 32 || b == 9 || b == 10 || b == 11 || b == 12 || b == 13

def fieldsAux : List Nat → List Nat → List (List Nat)
  | [], acc => if acc = [] then [] else [acc.reverse]
  | c :: rest, acc =>
    if isGoSpace c then
      if acc = [] then fieldsAux rest [] else acc.reverse :: fieldsAux rest []
    else fieldsAux rest (c :: acc)

/-- `strings.Fields`: the maximal whitespace-free runs of the input. -/
def fieldsOf (s : List Nat) : List (List Nat) :=
  fieldsAux s []

/-- Accumulate base-`base` digits (`'0'` is 48); fails on a non-digit. -/
def parseDigitsAux (base : Nat) (acc : Nat) : List Nat → Option Nat
  | [] => some acc
  | c :: rest =>
    if 48 ≤ c ∧ c < 48 + base then
      parseDigitsAux base (acc * base + (c - 48)) rest
    else none

/-- `strconv.ParseUint(s, base, bitSize)` for base 8 or 10: digits
only, no sign; fails on an empty string, a bad digit, or a value out
of range (Go then returns a non-nil error, which every caller treats
as a parse failure). -/
def parseUintGo (base bitSize : Nat) (s : List Nat) : Option Nat :=
  match s with
  | [] => none
  | _ :: _ =>
    match parseDigitsAux base 0 s with
    | none => none
    | some v => if v < 2 ^ bitSize then some v else none

def parseIntCore (base bitSize : Nat) (neg : Bool) (ds : List Nat) : Option Int :=
  match ds with
  | [] => none
  | _ :: _ =>
    match parseDigitsAux base 0 ds with
    | none => none
    | some v =>
      if neg then
        if v ≤ 2 ^ (bitSize - 1) then some (-(v : Int)) else none
      else
        if v < 2 ^ (bitSize - 1) then some (v : Int) else none

/-- `strconv.ParseInt(s, base, bitSize)`: an optional `+`/`-` sign,
then digits, with the signed range `-2^(bitSize-1) .. 2^(bitSize-1)-1`. -/
def parseIntGo (base bitSize : Nat) (s : List Nat) : Option Int :=
  match s with
  | 43 :: rest => parseIntCore base bitSize false rest
  | 45 :: rest => parseIntCore base bitSize true rest
  | _ => parseIntCore base bitSize false s

/-- Trim trailing NUL bytes from the metadata (the `rest` loop). -/
def trimTrailingNuls (s : List Nat) : List Nat :=
  (s.reverse.dropWhile (· == 0)).reverse

/-- The success path of `parseFileInfo` once the first NUL is at `i`:
the name is everything before the NUL, the metadata after it is
trimmed of trailing NULs and split into fields, and each field is
parsed leniently — a failed parse leaves the Go zero value.  Field 3
(the serial number) is ignored; the modification time is set only for
a positive octal value. -/
def parseFileInfoCore (data : List Nat) (i : Nat) : FileInfoM :=
  let name := data.take i
  let rest := trimTrailingNuls (data.drop (i + 1))
  if rest = [] then ⟨name, 0, none, 0, 0, 0⟩
  else
    let fields := fieldsOf rest
    let size : Int :=
      if 0 < fields.length then (parseIntGo 10 64 (fields.getD 0 [])).getD 0 else 0
    let modTime : Option Int :=
      if 1 < fields.length then
        match parseIntGo 8 64 (fields.getD 1 []) with
        | some v => if 0 < v then some v else none
        | none => none
      else none
    let mode : Nat :=
      if 2 < fields.length then (parseUintGo 8 32 (fields.getD 2 [])).getD 0 else 0
    let fr : Int :=
      if 4 < fields.length then (parseIntGo 10 64 (fields.getD 4 [])).getD 0 else 0
    let br : Int :=
      if 5 < fields.length then (parseIntGo 10 64 (fields.getD 5 [])).getD 0 else 0
    ⟨name, size, modTime, mode, fr, br⟩

/-- `parseFileInfo`: `none` models the "missing null terminator"
error; any input with a NUL parses successfully. -/
def parseFileInfo (data : List Nat) : Option FileInfoM :=
  match findNul data with
  | none => none
  | some i => some (parseFileInfoCore data i)

theorem findNul_none_iff : ∀ data : List Nat, findNul data = none ↔ ¬ 0 ∈ data
  | [] => by simp [findNul]
  | b :: rest => by
    by_cases hb : b = 0
    · subst hb; simp [findNul]
    · simp [findNul, hb, Option.map_eq_none', findNul_none_iff rest, Ne.symm hb]

theorem findNul_take : ∀ (data : List Nat) (i : Nat), findNul data = some i →
    data.take i = data.takeWhile (fun b => b != 0)
  | [], _, h => by simp [findNul] at h
  | b :: rest, i, h => by
    by_cases hb : b = 0
    · subst hb
      simp [findNul] at h
      subst h
      simp [List.takeWhile]
    · simp only [findNul, if_neg hb] at h
      cases hr : findNul rest with
      | none => rw [hr] at h; simp at h
      | some j =>
        rw [hr] at h
        simp only [Option.map_some', Option.some.injEq] at h
        subst h
        rw [List.take_succ_cons, List.takeWhile_cons]
        simp [hb, findNul_take rest j hr]

theorem parseFileInfoCore_name (data : List Nat) (i : Nat) :
    (parseFileInfoCore data i).name = data.take i := by
  simp only [parseFileInfoCore]
  split <;> rfl

/-- claim C9: `parseFileInfo` fails exactly when the input has no NUL
byte; on any input with a NUL it succeeds, the name is the prefix
before the first NUL, and a metadata field whose numeric parse fails
is silently left at its zero value (size 0, zero mod-time, mode 0,
batch hints 0) instead of raising an error. -/
theorem claim_C9_parse_file_info (data : List Nat) :
    (parseFileInfo data = none ↔ ¬ 0 ∈ data) ∧
    (∀ r, parseFileInfo data = some r →
      r.name = data.takeWhile (fun b => b != 0)) ∧
    (∀ i r, findNul data = some i → parseFileInfo data = some r →
      (parseIntGo 10 64 ((fieldsOf (trimTrailingNuls (data.drop (i + 1)))).getD 0 []) =
          none → r.size = 0) ∧
      (parseIntGo 8 64 ((fieldsOf (trimTrailingNuls (data.drop (i + 1)))).getD 1 []) =
          none → r.modTime = none) ∧
      (parseUintGo 8 32 ((fieldsOf (trimTrailingNuls (data.drop (i + 1)))).getD 2 []) =
          none → r.mode = 0) ∧
      (parseIntGo 10 64 ((fieldsOf (trimTrailingNuls (data.drop (i + 1)))).getD 4 []) =
          none → r.filesRemaining = 0) ∧
      (parseIntGo 10 64 ((fieldsOf (trimTrailingNuls (data.drop (i + 1)))).getD 5 []) =
          none → r.bytesRemaining = 0)) := by
  refine ⟨?_, ?_, ?_⟩
  · rw [← findNul_none_iff data]
    unfold parseFileInfo
    cases findNul data <;> simp
  · intro r hr
    unfold parseFileInfo at hr
    cases hf : findNul data with
    | none => rw [hf] at hr; simp at hr
    | some i =>
      rw [hf] at hr
      simp only [Option.some.injEq] at hr
      rw [← hr, parseFileInfoCore_name, findNul_take data i hf]
  · intro i r hf hr
    unfold parseFileInfo at hr
    rw [hf] at hr
    simp only [Option.some.injEq] at hr
    subst hr
    unfold parseFileInfoCore
    by_cases hrest : trimTrailingNuls (data.drop (i + 1)) = []
    · rw [if_pos hrest]
      exact ⟨fun _ => rfl, fun _ => rfl, fun _ => rfl, fun _ => rfl, fun _ => rfl⟩
    · rw [if_neg hrest]
      refine ⟨?_, ?_, ?_, ?_, ?_⟩ <;> intro h <;>
        simp only [List.getD, List.get?_eq_getElem?] at h <;> simp [h]

/-- C9 witness: `"f" NUL "9x"` parses with name `"f"` and, the size
field `"9x"` failing decimal parsing, size 0; an input without a NUL
is rejected. -/
theorem claim_C9_witness :
    (parseFileInfo [102, 120] = none ↔ ¬ 0 ∈ [102, 120]) ∧
    FileInfoM.name ⟨[102], 0, none, 0, 0, 0⟩ =
      [102, 0, 57, 120].takeWhile (fun b => b != 0) ∧
    FileInfoM.size ⟨[102], 0, none, 0, 0, 0⟩ = 0 := by
  have h1 := claim_C9_parse_file_info [102, 120]
  have h2 := claim_C9_parse_file_info [102, 0, 57, 120]
  exact ⟨h1.1, h2.2.1 ⟨[102], 0, none, 0, 0, 0⟩ (by rfl),
    (h2.2.2 1 ⟨[102], 0, none, 0, 0, 0⟩ (by rfl) (by rfl)).1 (by rfl)⟩

/-! ## Session configuration and read deadlines (src/zmodem.go, src/reader.go) -/

/-- The `Config` fields `defaults` touches; `recvTimeout` is Go's
`time.Duration` in nanoseconds (a signed 64-bit count). -/
structure ConfigM where
  maxBlockSize : Int
  recvTimeout : Int
  maxRetries : Int
  garbageThreshold : Int
  deriving DecidableEq, Repr

/-- `Config.defaults` (src/zmodem.go lines 95-111). -/
def ConfigM.defaults (c : ConfigM) : ConfigM :=
  let c := if c.maxBlockSize ≤ 0 then { c with maxBlockSize := 1024 } else c
  let c := if 8192 < c.maxBlockSize then { c with maxBlockSize := 8192 } else c
  let c := if c.recvTimeout < 0 then { c with recvTimeout := 0 } else c
  let c := if c.maxRetries ≤ 0 then { c with maxRetries := 10 } else c
  if c.garbageThreshold ≤ 0 then { c with garbageThreshold := 1200 } else c

/-- The Go zero value `var c Config` for the modelled fields. -/
def zeroConfig : ConfigM := ⟨0, 0, 0, 0⟩

/-- Ten seconds as a `time.Duration` nanosecond count. -/
def tenSeconds : Int := 10000000000

/-- The configuration `NewSession` keeps (src/zmodem.go lines
135-158): copy the caller's `Config` (or the zero value for `nil`),
apply `defaults`, then force the 10 s `RecvTimeout` only when the
caller passed `nil` and the timeout is still 0. -/
def newSessionCfg (cfg : Option ConfigM) : ConfigM :=
  let c := (cfg.getD zeroConfig).defaults
  if cfg = none ∧ c.recvTimeout = 0 then { c with recvTimeout := tenSeconds } else c

/-- `transportReader.readByte` arms a read deadline exactly when its
buffer is empty, the transport supports deadlines, and the timeout is
positive (src/reader.go lines 51-56). -/
def readSetsDeadline (buffered : Nat) (hasDS : Bool) (timeout : Int) : Bool :=
  buffered == 0 && hasDS && decide (0 < timeout)

/-- `transportReader.clearDeadline` touches the transport exactly when
it supports deadlines and the timeout is positive (src/reader.go lines
275-279). -/
def clearsDeadline (hasDS : Bool) (timeout : Int) : Bool :=
  hasDS && decide (0 < timeout)

/-- claim C10: the 10-second `RecvTimeout` default applies exactly to a
`nil` `Config`; a caller-supplied `Config` passes through `defaults`
untouched by the 10 s rule, so `RecvTimeout = 0` stays 0 and then
neither `readByte` nor `clearDeadline` ever touches a transport
deadline; and `defaults` normalizes a negative `RecvTimeout` to 0. -/
theorem claim_C10_recv_timeout (c : ConfigM) :
    (newSessionCfg none).recvTimeout = tenSeconds ∧
    newSessionCfg (some c) = c.defaults ∧
    (c.recvTimeout = 0 → (newSessionCfg (some c)).recvTimeout = 0 ∧
      (∀ (buffered : Nat) (hasDS : Bool),
        readSetsDeadline buffered hasDS (newSessionCfg (some c)).recvTimeout = false) ∧
      (∀ hasDS : Bool, clearsDeadline hasDS (newSessionCfg (some c)).recvTimeout = false)) ∧
    (c.recvTimeout < 0 → c.defaults.recvTimeout = 0) := by
  have hsome : newSessionCfg (some c) = c.defaults := by
    simp [newSessionCfg]
  have htime : ∀ d : ConfigM, d.defaults.recvTimeout =
      if d.recvTimeout < 0 then 0 else d.recvTimeout := by
    intro d
    simp only [ConfigM.defaults]
    split <;> split <;> split <;> split <;> split <;> rfl
  refine ⟨rfl, hsome, fun h0 => ⟨?_, ?_, ?_⟩, fun hneg => ?_⟩
  · rw [hsome, htime, h0]; rfl
  · intro buffered hasDS
    rw [hsome, htime, h0]
    simp [readSetsDeadline]
  · intro hasDS
    rw [hsome, htime, h0]
    simp [clearsDeadline]
  · rw [htime, if_pos hneg]

/-- C10 witness: a caller-supplied all-zero configuration keeps
`RecvTimeout` 0, disabling all deadline management, while the `nil`
configuration gets the 10 s default; `-1` normalizes to 0. -/
theorem claim_C10_witness :
    (newSessionCfg none).recvTimeout = tenSeconds ∧
    (newSessionCfg (some zeroConfig)).recvTimeout = 0 ∧
    readSetsDeadline 0 true (newSessionCfg (some zeroConfig)).recvTimeout = false ∧
    clearsDeadline true (newSessionCfg (some zeroConfig)).recvTimeout = false ∧
    (ConfigM.defaults ⟨0, -1, 0, 0⟩).recvTimeout = 0 := by
  have h := claim_C10_recv_timeout zeroConfig
  have h2 := claim_C10_recv_timeout ⟨0, -1, 0, 0⟩
  have hz := h.2.2.1 rfl
  exact ⟨h.1, hz.1, hz.2.1 0 true, hz.2.2 true, h2.2.2.2 (by decide)⟩

end ZM
